import Mathlib

/-! # DMX relay board firmware (`software/dmx_relay_board.c`)

A shallow embedding of the PIC18 firmware.  The C globals and the hardware
latches the program reads or writes become fields of `State`; every
`unsigned char` is a `Nat` kept below `256` and every `unsigned short` a `Nat`
kept below `65536` by an explicit `%` wherever the C code assigns or
increments.  What the serial receiver and timer 1 present to the polling
loops is an explicit input.

The build is the one configured in the source: `ZOMBIE_FOGGER` is not defined,
so lines 178-197 are not compiled.  The overrun recovery (`OERR`, lines
153-157 and 342-346) toggles a receiver enable bit only and touches none of
the variables below; the peripheral configuration registers written by `Init`
are not read by the program again.
-/

namespace DmxRelay

/-! ## Constants -/

/-- Enumerator `MODE_DMX_LOST = 0` (line 78). -/
def MODE_DMX_LOST : Nat := 0

/-- Enumerator `MODE_DMX_OK = 1` (line 79). -/
def MODE_DMX_OK : Nat := 1

/-- Line 45: `#define DEFAULT_MODE MODE_DMX_OK`. -/
def DEFAULT_MODE : Nat := MODE_DMX_OK

/-- Line 56: `#define EE_DMX_ADDR_HI 0x00`. -/
def EE_DMX_ADDR_HI : Nat := 0

/-- Line 57: `#define EE_DMX_ADDR_LO 0x01`. -/
def EE_DMX_ADDR_LO : Nat := 1

/-! ## Data model -/

/-- The globals of lines 63-97 together with the output latches, the timer 1
interrupt flag and the data EEPROM.  For the pins, `true` is a high level:
a relay is on when its `LATA` bit is `true`, the green LED is lit when `LATB0`
is `false` (lines 274-280). -/
structure State where
  new_level_ch1 : Nat
  new_level_ch2 : Nat
  new_level_ch3 : Nat
  new_level_ch4 : Nat
  rx_state : Nat
  rx_addr : Nat
  rx_level : Nat
  rx_ch1_addr : Nat
  rx_ch2_addr : Nat
  rx_ch3_addr : Nat
  rx_ch4_addr : Nat
  mode : Nat
  timer : Nat
  count : Nat
  count2 : Nat
  green_led_timer : Nat
  startup_timer : Nat
  dmx_address : Nat
  event_timer : Nat
  LATA0 : Bool
  LATA1 : Bool
  LATA2 : Bool
  LATA3 : Bool
  LATB0 : Bool
  TMR1IF : Bool
  eeprom : Nat → Nat

/-- One received character as the program sees it when `PIR1bits.RCIF` is set:
the framing-error bit `RCSTAbits.FERR` and the content of `RCREG`. -/
structure RxByte where
  ferr : Bool
  data : Nat
deriving DecidableEq, Repr

/-- What the hardware presents during one pass of a polling loop that looks at
the receiver once and at the timer flag once: the character waiting in the
receiver, if any, and whether timer 1 rolled over since the flag was last
cleared. -/
structure Poll where
  rx : Option RxByte
  tick : Bool
deriving DecidableEq, Repr

/-- What the hardware presents during one pass of the main loop.  The
`MODE_DMX_OK` branch looks at the receiver once (`rx`) and at the timer flag
once (`tick`); the `MODE_DMX_LOST` branch reads every character that arrives
before timer 1 rolls over (`drain`). -/
structure LoopInput where
  rx : Option RxByte
  tick : Bool
  drain : List RxByte
deriving DecidableEq, Repr

/-- An event handled by one of the two branches of the main loop: a received
character or a timer tick. -/
inductive Event where
  | rx (b : RxByte)
  | tick
deriving DecidableEq, Repr

/-- The four relay outputs `LATA0..LATA3`. -/
def relays (s : State) : List Bool := [s.LATA0, s.LATA1, s.LATA2, s.LATA3]

/-- The four channel addresses `rx_ch1_addr..rx_ch4_addr`. -/
def channels (s : State) : List Nat :=
  [s.rx_ch1_addr, s.rx_ch2_addr, s.rx_ch3_addr, s.rx_ch4_addr]

/-! ## EEPROM access (lines 430-459) -/

/-- Function `eeread`: the byte stored at `address`. -/
def eeread (address : Nat) (s : State) : Nat := s.eeprom (address % 256) % 256

/-- Function `eewrite`: store `data` at `address`; the write has completed when the
function returns (it polls `EEIF`). -/
def eewrite (address data : Nat) (s : State) : State :=
  { s with eeprom := fun a => if a = address % 256 then data % 256 else s.eeprom a }

/-! ## `Init` and the start of `main` (lines 100-149, 294-330) -/

/-- The machine before `Init` runs: C globals are zero, the latches hold
`lata`, `latb0`, the timer flag is clear and the EEPROM holds `ee`. -/
def resetState (ee : Nat → Nat) (lata0 lata1 lata2 lata3 latb0 : Bool) : State :=
  { new_level_ch1 := 0, new_level_ch2 := 0, new_level_ch3 := 0, new_level_ch4 := 0,
    rx_state := 0, rx_addr := 0, rx_level := 0,
    rx_ch1_addr := 0, rx_ch2_addr := 0, rx_ch3_addr := 0, rx_ch4_addr := 0,
    mode := 0, timer := 0, count := 0, count2 := 0, green_led_timer := 0,
    startup_timer := 0, dmx_address := 0, event_timer := 0,
    LATA0 := lata0, LATA1 := lata1, LATA2 := lata2, LATA3 := lata3,
    LATB0 := latb0, TMR1IF := false, eeprom := ee }

/-- Function `Init` (lines 294-330): `LATA = 0`, `LATB = 0`, receiver variables
cleared. -/
def Init (s : State) : State :=
  { s with
    LATA0 := false, LATA1 := false, LATA2 := false, LATA3 := false,
    LATB0 := false,
    rx_state := 0, rx_level := 0, rx_addr := 0 }

/-- Lines 104-110 of `main`. -/
def mainVars (s : State) : State :=
  { s with mode := DEFAULT_MODE, timer := 0, count := 0, count2 := 0,
           green_led_timer := 0, event_timer := 0 }

/-- The `do ... while (--startup_timer)` loop of lines 116-128.  `ra4 k` is the
level read at the `k`-th sample of pin RA4 since power-on; `k` is the index of
the next sample.  Each pass re-arms timer 1, samples the pin, and if it is low
waits for the timer to roll over.  The result is the state when the loop is
left; `none` only if the fuel runs out. -/
def buttonLoop (ra4 : Nat → Bool) : Nat → Nat → State → Option State
  | 0, _, _ => none
  | fuel + 1, k, s =>
    let s1 := { s with TMR1IF := false }
    if ra4 k then
      some { s1 with startup_timer := 255 }
    else
      let s2 := { s1 with TMR1IF := true, startup_timer := (s1.startup_timer + 255) % 256 }
      if s2.startup_timer ≠ 0 then buttonLoop ra4 fuel (k + 1) s2 else some s2

/-- Lines 112-134 up to the decision: the state after the button check and
whether `GetNewDmxAddress` is to be called.  `none` only if the loop ran out
of fuel. -/
def buttonCheck (ra4 : Nat → Bool) (s : State) : Option (State × Bool) :=
  if ra4 0 = false then
    match buttonLoop ra4 256 1 { s with startup_timer := 50 } with
    | some s1 => some (s1, decide (s1.startup_timer = 0))
    | none => none
  else
    some (s, false)

/-- Lines 136-149: read the address from the EEPROM, constrain it, derive the
four channel addresses. -/
def loadAddress (s : State) : State :=
  let a0 := (((eeread EE_DMX_ADDR_HI s) <<< 8) ||| (eeread EE_DMX_ADDR_LO s)) % 65536
  let a1 := if a0 < 1 then 1 else a0
  let a2 := if a1 > 510 then 510 else a1
  { s with dmx_address := a2,
           rx_ch1_addr := (a2 + 0) % 65536,
           rx_ch2_addr := (a2 + 1) % 65536,
           rx_ch3_addr := (a2 + 2) % 65536,
           rx_ch4_addr := (a2 + 3) % 65536 }

/-! ## Main loop, `MODE_DMX_LOST` branch (lines 160-215) -/

/-- Lines 161-174: start of a tick interval in `MODE_DMX_LOST`: re-arm
timer 1, age the break count, LED steady on. -/
def lostArm (s : State) : State :=
  let s1 := { s with TMR1IF := false }
  let s2 := if s1.timer = 6 then { s1 with count := 0 }
            else { s1 with timer := (s1.timer + 1) % 256 }
  { s2 with LATB0 := false }

/-- Lines 202-214: one character read inside the drain loop. -/
def lostRx (b : RxByte) (s : State) : State :=
  if b.ferr then
    let s1 := { s with rx_level := b.data % 256, timer := 0, count := (s.count + 1) % 256 }
    if s1.count = 50 then { s1 with count := 0, mode := MODE_DMX_OK } else s1
  else
    { s with rx_level := b.data % 256 }

/-- The drain loop of lines 201-215 over the characters that arrive before
the timer rolls over. -/
def lostDrain (drain : List RxByte) (s : State) : State :=
  drain.foldl (fun t b => lostRx b t) s

/-- One pass through the `MODE_DMX_LOST` branch: lines 161-215.  The drain
loop is left when `TMR1IF` is set. -/
def lostIter (drain : List RxByte) (s : State) : State :=
  { lostDrain drain (lostArm s) with TMR1IF := true }

/-! ## Main loop, `MODE_DMX_OK` branch (lines 218-284) -/

/-- Lines 220-251: one character handled in `MODE_DMX_OK`. -/
def okRx (b : RxByte) (s : State) : State :=
  if b.ferr then
    { s with rx_level := b.data % 256, rx_addr := 0, rx_state := 1 }
  else
    let s1 := { s with rx_level := b.data % 256, count2 := 0 }
    if s1.rx_state = 1 then
      if s1.rx_addr ≤ 512 then
        let s2 :=
          if s1.rx_addr = s1.rx_ch1_addr then
            { s1 with new_level_ch1 := s1.rx_level }
          else if s1.rx_addr = s1.rx_ch2_addr then
            { s1 with new_level_ch2 := s1.rx_level }
          else if s1.rx_addr = s1.rx_ch3_addr then
            { s1 with new_level_ch3 := s1.rx_level }
          else if s1.rx_addr = s1.rx_ch4_addr then
            let s3 := { s1 with new_level_ch4 := s1.rx_level }
            { s3 with LATA0 := decide (s3.new_level_ch1 ≥ 128),
                      LATA1 := decide (s3.new_level_ch2 ≥ 128),
                      LATA2 := decide (s3.new_level_ch3 ≥ 128),
                      LATA3 := decide (s3.new_level_ch4 ≥ 128),
                      rx_state := 0 }
          else s1
        { s2 with rx_addr := (s2.rx_addr + 1) % 65536 }
      else s1
    else s1

/-- Lines 256-283: one timer tick handled in `MODE_DMX_OK`. -/
def okTick (s : State) : State :=
  let s1 := { s with TMR1IF := false, count2 := (s.count2 + 1) % 65536 }
  let s2 :=
    if s1.count2 = 500 then
      { s1 with count2 := 0, event_timer := 0,
                LATA0 := false, LATA1 := false, LATA2 := false, LATA3 := false,
                mode := MODE_DMX_LOST }
    else s1
  let s3 := { s2 with green_led_timer := (s2.green_led_timer + 1) % 256 }
  if s3.green_led_timer = 1 then { s3 with LATB0 := false }
  else if s3.green_led_timer = 7 then { s3 with LATB0 := true }
  else if s3.green_led_timer = 13 then { s3 with LATB0 := false }
  else if s3.green_led_timer = 19 then { s3 with LATB0 := true }
  else if s3.green_led_timer = 50 then { s3 with green_led_timer := 0 }
  else s3

/-- One pass through the `MODE_DMX_OK` branch: lines 219-284.  The tick is
handled when the flag is set, whether it was left set by an earlier wait loop
or timer 1 rolled over since. -/
def okIter (rx : Option RxByte) (tick : Bool) (s : State) : State :=
  let s1 := match rx with
    | some b => okRx b s
    | none => s
  if s1.TMR1IF || tick then okTick s1 else s1

/-- One pass of the `while (1)` loop of `main` (lines 151-290). -/
def mainIter (inp : LoopInput) (s : State) : State :=
  if s.mode = MODE_DMX_LOST then lostIter inp.drain s
  else if s.mode = MODE_DMX_OK then okIter inp.rx inp.tick s
  else { s with mode := MODE_DMX_LOST }

/-- Successive passes of the main loop. -/
def run (inps : List LoopInput) (s : State) : State :=
  inps.foldl (fun t i => mainIter i t) s

/-- An event handled by the `MODE_DMX_OK` branch. -/
def okEvent (e : Event) (s : State) : State :=
  match e with
  | Event.rx b => okRx b s
  | Event.tick => okTick s

/-- A sequence of events handled by the `MODE_DMX_OK` branch.  This is what
the main loop does for as long as `mode` stays `MODE_DMX_OK`. -/
def okEvents (evs : List Event) (s : State) : State :=
  evs.foldl (fun t e => okEvent e t) s

/-- An event handled by the `MODE_DMX_LOST` branch: a character read in the
drain loop, or the timer rolling over, which ends the pass and (the mode still
being `MODE_DMX_LOST`) starts the next one at line 161. -/
def lostEvent (e : Event) (s : State) : State :=
  match e with
  | Event.rx b => lostRx b s
  | Event.tick => lostArm s

/-- A sequence of events handled by the `MODE_DMX_LOST` branch. -/
def lostEvents (evs : List Event) (s : State) : State :=
  evs.foldl (fun t e => lostEvent e t) s

/-! ## `GetNewDmxAddress` (lines 333-427) -/

/-- Lines 352-377: one character handled by the scan.  The flag is `true` when
the `break` of line 367 leaves the loop. -/
def scanRx (b : RxByte) (s : State) : State × Bool :=
  if b.ferr then
    ({ s with rx_level := b.data % 256, rx_addr := 0, rx_state := 1 }, false)
  else
    let s1 := { s with rx_level := b.data % 256 }
    if s1.rx_state = 1 then
      if (s1.rx_addr ≥ 1 ∧ s1.rx_addr ≤ 512) ∧ s1.rx_level = 255 then
        (s1, true)
      else
        let s2 := { s1 with rx_addr := (s1.rx_addr + 1) % 65536 }
        if s2.rx_addr > 512 then ({ s2 with rx_state := 0 }, false) else (s2, false)
    else (s1, false)

/-- Lines 382-391: one timer tick handled by the scan. -/
def scanTick (s : State) : State :=
  let s1 := { s with TMR1IF := false, green_led_timer := (s.green_led_timer + 1) % 256 }
  if s1.green_led_timer = 3 then { s1 with LATB0 := true }
  else if s1.green_led_timer = 30 then { s1 with LATB0 := false, green_led_timer := 0 }
  else s1

/-- Outcome of the scan loop on a finite input stream. -/
inductive ScanOutcome where
  /-- The `break` of line 367 was taken in state `s`; `rest` is the unread input. -/
  | found (s : State) (rest : List Poll)
  /-- The stream ended with the loop still scanning, in state `s`. -/
  | scanning (s : State)

/-- The `while (1)` loop of lines 340-393. -/
def scanLoop : List Poll → State → ScanOutcome
  | [], s => ScanOutcome.scanning s
  | p :: ps, s =>
    match p.rx with
    | some b =>
      let r := scanRx b s
      if r.2 then ScanOutcome.found r.1 ps
      else scanLoop ps (if r.1.TMR1IF || p.tick then scanTick r.1 else r.1)
    | none => scanLoop ps (if s.TMR1IF || p.tick then scanTick s else s)

/-- Lines 335-338: entry of `GetNewDmxAddress`. -/
def scanEntry (s : State) : State :=
  { s with rx_level := 0, rx_addr := 0, rx_state := 0, green_led_timer := 0 }

/-- Lines 395-406: store the address, relays off, LED on. -/
def storeAddress (s : State) : State :=
  let s1 := eewrite EE_DMX_ADDR_HI ((s.rx_addr >>> 8) &&& 0xff) s
  let s2 := eewrite EE_DMX_ADDR_LO ((s1.rx_addr >>> 0) &&& 0xff) s1
  { s2 with LATA0 := false, LATA1 := false, LATA2 := false, LATA3 := false,
            LATB0 := false }

/-- One pass of the `do ... while (--startup_timer)` loop of lines 411-426, up
to and including the wait for the timer. -/
def confirmPass (s : State) : State :=
  let s1 := { s with TMR1IF := false, green_led_timer := (s.green_led_timer + 1) % 256 }
  let s2 :=
    if s1.green_led_timer = 3 then { s1 with LATB0 := false }
    else if s1.green_led_timer = 15 then { s1 with LATB0 := true, green_led_timer := 0 }
    else s1
  { s2 with TMR1IF := true }

/-- The loop of lines 411-426; `none` only if the fuel runs out. -/
def confirmLoop : Nat → State → Option State
  | 0, _ => none
  | fuel + 1, s =>
    let s1 := confirmPass s
    let s2 := { s1 with startup_timer := (s1.startup_timer + 255) % 256 }
    if s2.startup_timer ≠ 0 then confirmLoop fuel s2 else some s2

/-- Lines 408-426: the one-second confirmation window. -/
def confirmWindow (s : State) : Option State :=
  confirmLoop 256 { s with startup_timer := 50, green_led_timer := 0 }

/-- Function `GetNewDmxAddress` on the input stream `polls`: `none` when the stream
ends before the sentinel is found (the C function has not returned). -/
def GetNewDmxAddress (polls : List Poll) (s : State) : Option State :=
  match scanLoop polls (scanEntry s) with
  | ScanOutcome.found s1 _ => confirmWindow (storeAddress s1)
  | ScanOutcome.scanning _ => none

/-! ## Power-on to the first pass of the main loop -/

/-- Everything `main` does before the `while (1)` loop (lines 102-149). -/
def boot (ee : Nat → Nat) (lata0 lata1 lata2 lata3 latb0 : Bool)
    (ra4 : Nat → Bool) (polls : List Poll) : Option State :=
  match buttonCheck ra4 (mainVars (Init (resetState ee lata0 lata1 lata2 lata3 latb0))) with
  | some (s1, true) => (GetNewDmxAddress polls s1).map loadAddress
  | some (s1, false) => some (loadAddress s1)
  | none => none

/-- States of the machine at the top of the main loop. -/
inductive Reachable : State → Prop where
  | start (ee : Nat → Nat) (lata0 lata1 lata2 lata3 latb0 : Bool)
      (ra4 : Nat → Bool) (polls : List Poll) (s : State) :
      boot ee lata0 lata1 lata2 lata3 latb0 ra4 polls = some s → Reachable s
  | pass (inp : LoopInput) (s : State) : Reachable s → Reachable (mainIter inp s)

/-! ## Concrete inputs used to exercise the model -/

/-- The state at the end of `mainVars`, with an erased EEPROM (all `0xff`). -/
def freshState : State :=
  mainVars (Init (resetState (fun _ => 255) false false false false false))

/-- A character received with a framing error: a DMX break. -/
def brk : RxByte := ⟨true, 0⟩

/-- A character received without framing error. -/
def chr (v : Nat) : RxByte := ⟨false, v⟩

/-- A state whose EEPROM holds `0x03`, `0xe7`, that is the address 999. -/
def stored999 : State :=
  eewrite EE_DMX_ADDR_LO 0xe7 (eewrite EE_DMX_ADDR_HI 0x03 freshState)

/-- A stream for the scan in which the first `0xff` after a break is at
position 37: a break, the start code, channels 1 to 36 at zero, channel 37 at
`0xff`. -/
def streamTo37 : List Poll :=
  ⟨some brk, false⟩ :: (List.replicate 37 ⟨some (chr 0), false⟩ ++ [⟨some (chr 255), true⟩])


/-! ## The sentinel of the addressing procedure, as the specification words it -/

/-- The characters a polling loop reads from the stream `polls`, in order. -/
def received (polls : List Poll) : List RxByte := polls.filterMap (fun p => p.rx)

/-- The first error-free character of value 255 whose position lies in
`[1,512]`, positions being counted as the specification does: `pos` is the
number of error-free characters received since the most recent break (`none`
before any break), so the start code has position 0.  The result is the index
of that character in the list and its position. -/
def sentinelSearch : Option Nat → List RxByte → Option (Nat × Nat)
  | _, [] => none
  | pos, b :: bs =>
    if b.ferr then
      (sentinelSearch (some 0) bs).map (fun r => (r.1 + 1, r.2))
    else
      match pos with
      | none => (sentinelSearch none bs).map (fun r => (r.1 + 1, r.2))
      | some p =>
        if b.data % 256 = 255 ∧ 1 ≤ p ∧ p ≤ 512 then some (0, p)
        else (sentinelSearch (some (p + 1)) bs).map (fun r => (r.1 + 1, r.2))

/-- How the scan variables `rx_state`, `rx_addr` represent the position `pos`
of the next character: not seeking before the first break and beyond position
512, seeking with `rx_addr` equal to the position otherwise. -/
def Tracks (pos : Option Nat) (s : State) : Prop :=
  match pos with
  | none => s.rx_state ≠ 1
  | some p => if p ≤ 512 then s.rx_state = 1 ∧ s.rx_addr = p else s.rx_state ≠ 1

/-- What the scan loop is shown to do on a stream, relative to the position
`pos` the specification assigns to the next character. -/
def ScanAgrees (pos : Option Nat) (polls : List Poll) (s : State) : Prop :=
  (sentinelSearch pos (received polls) = none →
      ∃ s', scanLoop polls s = ScanOutcome.scanning s' ∧ s'.eeprom = s.eeprom) ∧
  (∀ i p, sentinelSearch pos (received polls) = some (i, p) →
      ∃ (done : List Poll) (b : RxByte) (t : Bool) (rest : List Poll) (s1 : State),
        polls = done ++ ⟨some b, t⟩ :: rest ∧ (received done).length = i ∧
        scanLoop polls s = ScanOutcome.found s1 rest ∧ s1.rx_addr = p ∧
        s1.eeprom = s.eeprom)

/-- A stream for the scan with a `0xff` before any break, a `0xff` as start
code, and the first `0xff` at a channel position at position 2. -/
def streamTo2 : List Poll :=
  [⟨some (chr 255), false⟩, ⟨none, true⟩, ⟨some brk, false⟩, ⟨some (chr 255), false⟩,
   ⟨some (chr 7), true⟩, ⟨none, false⟩, ⟨some (chr 255), false⟩, ⟨some (chr 255), false⟩]

/-- The stream of the specification's addressing example: an earlier break,
then a break, an error-free `0x00` and an error-free `0xff`. -/
def streamExample : List Poll :=
  [⟨some brk, false⟩, ⟨some brk, false⟩, ⟨some (chr 0x00), false⟩, ⟨some (chr 0xff), false⟩]

/-- Number of timer ticks in a sequence of events. -/
def ticksIn : List Event → Nat
  | [] => 0
  | Event.tick :: es => ticksIn es + 1
  | Event.rx _ :: es => ticksIn es

/-- Six ticks with a character in between: the next tick is the seventh of
the blink cycle. -/
def sixTicks : List Event :=
  [Event.tick, Event.tick, Event.rx (chr 3), Event.tick, Event.tick, Event.tick, Event.tick]

/-- Values of the error-free characters in a sequence of events, in order. -/
def dataOf : List Event → List Nat
  | [] => []
  | Event.rx b :: es => if b.ferr then dataOf es else b.data :: dataOf es
  | Event.tick :: es => dataOf es

/-- Number of breaks (characters with a framing error) in a sequence of
events. -/
def breaksIn : List Event → Nat
  | [] => 0
  | Event.rx b :: es => if b.ferr then breaksIn es + 1 else breaksIn es
  | Event.tick :: es => breaksIn es

/-- The decoder is inside a frame whose error-free characters so far are
`hist`, with base address `A`: it is seeking, `rx_addr` is the position of
the next character, and the pending levels of the channels already passed
hold the characters received at their positions. -/
def Seeking (A : Nat) (hist : List Nat) (s : State) : Prop :=
  channels s = [A, A + 1, A + 2, A + 3] ∧ s.rx_state = 1 ∧ s.rx_addr = hist.length ∧
  (A < hist.length → s.new_level_ch1 = hist.getD A 0 % 256) ∧
  (A + 1 < hist.length → s.new_level_ch2 = hist.getD (A + 1) 0 % 256) ∧
  (A + 2 < hist.length → s.new_level_ch3 = hist.getD (A + 2) 0 % 256)

/-- The events of one frame: a break, then the error-free characters `bs`. -/
def frameEvents (d : Nat) (bs : List Nat) : List Event :=
  Event.rx ⟨true, d⟩ :: bs.map (fun v => Event.rx ⟨false, v⟩)

/-- The state after startup with the address 10 stored in the EEPROM. -/
def base10State : State :=
  loadAddress (eewrite EE_DMX_ADDR_LO 10 (eewrite EE_DMX_ADDR_HI 0 freshState))

/-- The state after startup with the address 1 stored in the EEPROM. -/
def base1State : State :=
  loadAddress (eewrite EE_DMX_ADDR_LO 1 (eewrite EE_DMX_ADDR_HI 0 freshState))

/-- A frame for base address 1, after its break and without its last
character: start code, a tick, then channels 1 to 3. -/
def midFrame : List Event :=
  [Event.rx (chr 0), Event.tick, Event.rx (chr 200), Event.rx (chr 10), Event.rx (chr 128)]

/-- Characters `b0 .. b8` of a frame, all zero. -/
def nineZeros : List Nat := [0, 0, 0, 0, 0, 0, 0, 0, 0]

/-- Characters `b0 .. b9` of a frame, all zero. -/
def tenZeros : List Nat := [0, 0, 0, 0, 0, 0, 0, 0, 0, 0]

/-! ## Break spacing, as the specification words it -/

/-- The number of ticks since the most recent break after the events `evs`,
starting from `since` (`none`: no break yet). -/
def sinceAfter : Option Nat → List Event → Option Nat
  | since, [] => since
  | since, Event.tick :: es => sinceAfter (since.map (fun k => k + 1)) es
  | since, Event.rx b :: es => if b.ferr then sinceAfter (some 0) es else sinceAfter since es

/-- Fewer than `n` ticks lie between each pair of consecutive breaks of `evs`;
`since` is the number of ticks since the most recent break before `evs`
(`none`: no break yet). -/
def gapsBelow (n : Nat) : Option Nat → List Event → Bool
  | _, [] => true
  | since, Event.tick :: es => gapsBelow n (since.map (fun k => k + 1)) es
  | since, Event.rx b :: es =>
    if b.ferr then
      (match since with
        | none => true
        | some k => decide (k < n)) && gapsBelow n (some 0) es
    else gapsBelow n since es

/-- The break counter of the `MODE_DMX_LOST` branch has counted `c` breaks and
its idle timer agrees with `since`, the ticks since the most recent break. -/
def Counted (since : Option Nat) (c : Nat) (s : State) : Prop :=
  s.mode = MODE_DMX_LOST ∧
  match since with
  | none => s.count = 0 ∧ c = 0
  | some k => k ≤ 6 → s.timer = k ∧ s.count = c

/-- A state in `MODE_DMX_LOST` with the break counter at 0. -/
def lostState : State := { freshState with mode := MODE_DMX_LOST }

/-- Forty-nine tick intervals, each with a break and a start code. -/
def fortyNineBreaks : List Event :=
  (List.replicate 49 [Event.tick, Event.rx brk, Event.rx (chr 0)]).flatten

/-! ## Auxiliary projections -/

/-- The variables that steer the main loop: `mode`, `timer`, `count`,
`count2`, `event_timer`. -/
def ctl (s : State) : Nat × Nat × Nat × Nat × Nat :=
  (s.mode, s.timer, s.count, s.count2, s.event_timer)

/-- The state in which the scan loop was left or interrupted. -/
def ScanOutcome.state : ScanOutcome → State
  | ScanOutcome.found s _ => s
  | ScanOutcome.scanning s => s

/-- A pass of the main loop during which nothing is received and timer 1
rolls over. -/
def silentTick : LoopInput := ⟨none, true, []⟩

/-- The state at the top of the main loop after a power-on with the button
released and an erased EEPROM. -/
def bootedState : State := loadAddress freshState

/-- The events one pass through the `MODE_DMX_OK` branch handles: the
character waiting in the receiver, if any, then a tick if the timer flag is
set (`latched`: it was already set on entry). -/
def passEvents (latched : Bool) (inp : LoopInput) : List Event :=
  (match inp.rx with
    | some b => [Event.rx b]
    | none => []) ++ (if latched || inp.tick then [Event.tick] else [])

/-- The four pending relay levels `new_level_ch1..new_level_ch4`. -/
def levels (s : State) : List Nat :=
  [s.new_level_ch1, s.new_level_ch2, s.new_level_ch3, s.new_level_ch4]

/-- The address and channel addresses computed at startup. -/
def cfg (s : State) : Nat × List Nat := (s.dmx_address, channels s)

/-- The state at the top of the main loop after `bootedState` and 500 passes in
which nothing is received and timer 1 rolls over. -/
def silencedState : State := run (List.replicate 500 silentTick) bootedState

/-- A state reached with the address 510 after a break and twenty channel
values of 255 have been received. -/
def busyState510 : State :=
  run (⟨some brk, false, []⟩ :: List.replicate 20 ⟨some (chr 255), true, []⟩) bootedState

/-- A stream for the scan in which the first `0xff` after a break is at
position 511: a break, the start code and channels 1 to 510 at zero, channel
511 at `0xff`. -/
def streamTo511 : List Poll :=
  ⟨some brk, false⟩ ::
    (List.replicate 511 (chr 0) ++ [chr 255]).map (fun b => ⟨some b, false⟩)

/-- Lines 409-410: entry of the confirmation window. -/
def confirmStart (s : State) : State :=
  { s with startup_timer := 50, green_led_timer := 0 }

/-- One pass of the loop of lines 411-426 together with the `--startup_timer`
of its `while`. -/
def confirmStep (s : State) : State :=
  { confirmPass s with startup_timer := ((confirmPass s).startup_timer + 255) % 256 }

/-- The state during the `k`-th tick interval of the confirmation window
entered in state `s`, that is after `k` passes of its loop. -/
def confirmAfter (k : Nat) (s : State) : State := Nat.iterate confirmStep k s

/-- The state in which a frame for base address 10 has just been decoded. -/
def decodedState : State :=
  okEvents (frameEvents 0 (tenZeros ++ [255, 0, 128, 127])) base10State

/-! ## Loss counter and idle timer, as the specification words them -/

/-- The number of ticks handled since the later of the start of `evs`, where
`c` ticks had been counted, and the most recent error-free character of
`evs`; a break neither resets nor advances it. -/
def lossCount : Nat → List Event → Nat
  | c, [] => c
  | c, Event.tick :: es => lossCount (c + 1) es
  | c, Event.rx b :: es => if b.ferr then lossCount c es else lossCount 0 es

/-- Two ticks, an error-free character, two more ticks and a break. -/
def tickByteTicks : List Event :=
  [Event.tick, Event.tick, Event.rx (chr 1), Event.tick, Event.tick, Event.rx brk]

/-- A pass of the main loop in `MODE_DMX_LOST` during which three short frames
arrive: three times a break and a start code. -/
def tripleBreak : LoopInput := ⟨none, false, [brk, chr 0, brk, chr 0, brk, chr 0]⟩

/-- The state at the top of the main loop after power-on with the button
released, 500 silent ticks, and 17 tick intervals with three short frames
each (51 breaks). -/
def overcountedState : State := run (List.replicate 17 tripleBreak) silencedState

/-- The number of error-free characters received since the most recent break
(`none` before any break), counted over the characters `bs` from `acc`. -/
def bytesSinceBreak : Option Nat → List RxByte → Option Nat
  | acc, [] => acc
  | acc, b :: bs =>
    if b.ferr then bytesSinceBreak (some 0) bs
    else bytesSinceBreak (acc.map (fun n => n + 1)) bs

/-- A stream for the addressing procedure: a break, the start code, channel 1
at `0xff`. -/
def streamTo1 : List Poll :=
  [⟨some brk, false⟩, ⟨some (chr 0), false⟩, ⟨some (chr 255), false⟩]

/-- The state at the top of the main loop after a power-on with the button
held and the stream `streamTo1`, if the addressing procedure returns. -/
def addressedState : Option State :=
  boot (fun _ => 255) false false false false false (fun _ => false) streamTo1

/-- Four passes of the main loop, each reading one error-free character:
0, 0, 0, 200. -/
def fourMore : List LoopInput :=
  [⟨some (chr 0), false, []⟩, ⟨some (chr 0), false, []⟩, ⟨some (chr 0), false, []⟩,
   ⟨some (chr 200), false, []⟩]

/-- The 16-bit value assembled from two bytes at line 137. -/
theorem shl_or_bytes (hi lo : Nat) (hlo : lo < 256) :
    (hi <<< 8) ||| lo = hi * 256 + lo := by
  have h := Nat.mul_add_lt_is_or (i := 8) (b := lo) (by simpa using hlo) hi
  rw [Nat.shiftLeft_eq]
  have e : (2 : Nat) ^ 8 = 256 := by norm_num
  rw [e] at h ⊢
  rw [Nat.mul_comm hi 256, ← h]

/-- The byte written to `EE_DMX_ADDR_HI` at line 396. -/
theorem hi_byte (a : Nat) : (a >>> 8) &&& 0xff = a / 256 % 256 := by
  rw [Nat.shiftRight_eq_div_pow]
  exact Nat.and_pow_two_sub_one_eq_mod _ 8

/-- The byte written to `EE_DMX_ADDR_LO` at line 397. -/
theorem lo_byte (a : Nat) : (a >>> 0) &&& 0xff = a % 256 := by
  rw [Nat.shiftRight_zero]
  exact Nat.and_pow_two_sub_one_eq_mod _ 8

/-- What `loadAddress` computes, in arithmetic terms. -/
theorem loadAddress_dmx_address (s : State) :
    (loadAddress s).dmx_address =
      (let raw := (s.eeprom 0 % 256) * 256 + s.eeprom 1 % 256
       if raw < 1 then 1 else if raw > 510 then 510 else raw) := by
  have h := shl_or_bytes (s.eeprom 0 % 256) (s.eeprom 1 % 256) (Nat.mod_lt _ (by norm_num))
  have hb0 : s.eeprom 0 % 256 < 256 := Nat.mod_lt _ (by norm_num)
  have hb1 : s.eeprom 1 % 256 < 256 := Nat.mod_lt _ (by norm_num)
  simp only [loadAddress, eeread, EE_DMX_ADDR_HI, EE_DMX_ADDR_LO, Nat.zero_mod, Nat.one_mod, h]
  have e : ((s.eeprom 0 % 256) * 256 + s.eeprom 1 % 256) % 65536
      = (s.eeprom 0 % 256) * 256 + s.eeprom 1 % 256 := Nat.mod_eq_of_lt (by omega)
  rw [e]
  split_ifs <;> omega

/-- The loaded address is in `[1,510]`. -/
theorem loadAddress_range (s : State) :
    1 ≤ (loadAddress s).dmx_address ∧ (loadAddress s).dmx_address ≤ 510 := by
  rw [loadAddress_dmx_address]
  simp only
  split_ifs <;> omega

/-- The channel addresses in terms of the loaded address, as computed. -/
theorem loadAddress_channels_mod (s : State) :
    channels (loadAddress s) =
      [((loadAddress s).dmx_address + 0) % 65536, ((loadAddress s).dmx_address + 1) % 65536,
       ((loadAddress s).dmx_address + 2) % 65536, ((loadAddress s).dmx_address + 3) % 65536] :=
  rfl

/-- The channel addresses are the loaded address plus 0, 1, 2, 3. -/
theorem loadAddress_channels (s : State) :
    channels (loadAddress s) =
      [(loadAddress s).dmx_address, (loadAddress s).dmx_address + 1,
       (loadAddress s).dmx_address + 2, (loadAddress s).dmx_address + 3] := by
  have hle := (loadAddress_range s).2
  rw [loadAddress_channels_mod]
  generalize (loadAddress s).dmx_address = a at hle
  have e : ∀ k, k ≤ 3 → (a + k) % 65536 = a + k := fun k hk => Nat.mod_eq_of_lt (by omega)
  rw [e 0 (by norm_num), e 1 (by norm_num), e 2 (by norm_num), e 3 (by norm_num)]
  rfl

/-- Fields kept by one pass of the confirmation loop. -/
theorem confirmPass_keeps (s : State) :
    (confirmPass s).startup_timer = s.startup_timer ∧ (confirmPass s).eeprom = s.eeprom ∧
    relays (confirmPass s) = relays s ∧ (confirmPass s).rx_addr = s.rx_addr := by
  simp only [confirmPass, relays]
  split_ifs <;> simp

/-- The confirmation loop returns, and touches nothing but the LED, its
phase counter, the timer flag and `startup_timer`. -/
theorem confirmLoop_returns (n : Nat) : ∀ (fuel : Nat) (s : State),
    s.startup_timer = n + 1 → n + 1 < 256 → n < fuel →
    ∃ s', confirmLoop fuel s = some s' ∧ s'.eeprom = s.eeprom ∧
      relays s' = relays s ∧ s'.rx_addr = s.rx_addr ∧ s'.startup_timer = 0 := by
  induction n with
  | zero =>
    intro fuel s hs _ hf
    obtain ⟨f, rfl⟩ : ∃ f, fuel = f + 1 := ⟨fuel - 1, by omega⟩
    obtain ⟨k1, k2, k3, k4⟩ := confirmPass_keeps s
    have hz : ((confirmPass s).startup_timer + 255) % 256 = 0 := by rw [k1, hs]
    refine ⟨{ confirmPass s with startup_timer := ((confirmPass s).startup_timer + 255) % 256 },
      ?_, k2, k3, k4, hz⟩
    rw [confirmLoop]
    exact if_neg (by simp [hz])
  | succ n ih =>
    intro fuel s hs hlt hf
    obtain ⟨f, rfl⟩ : ∃ f, fuel = f + 1 := ⟨fuel - 1, by omega⟩
    obtain ⟨k1, k2, k3, k4⟩ := confirmPass_keeps s
    have hz : ((confirmPass s).startup_timer + 255) % 256 = n + 1 := by rw [k1, hs]; omega
    obtain ⟨s', h1, h2, h3, h4, h5⟩ :=
      ih f { confirmPass s with startup_timer := ((confirmPass s).startup_timer + 255) % 256 }
        hz (by omega) (by omega)
    refine ⟨s', ?_, h2.trans k2, h3.trans k3, h4.trans k4, h5⟩
    rw [confirmLoop]
    have hne : ((confirmPass s).startup_timer + 255) % 256 ≠ 0 := by rw [hz]; omega
    simpa [hne] using h1

/-- The confirmation window returns and keeps EEPROM, relays and `rx_addr`. -/
theorem confirmWindow_returns (s : State) :
    ∃ s', confirmWindow s = some s' ∧ s'.eeprom = s.eeprom ∧
      relays s' = relays s ∧ s'.rx_addr = s.rx_addr := by
  obtain ⟨s', h1, h2, h3, h4, _⟩ :=
    confirmLoop_returns 49 256 { s with startup_timer := 50, green_led_timer := 0 }
      rfl (by norm_num) (by norm_num)
  exact ⟨s', h1, h2, h3, h4⟩

/-- What `storeAddress` leaves in the two EEPROM cells. -/
theorem storeAddress_eeprom (s : State) :
    (storeAddress s).eeprom 0 = s.rx_addr / 256 % 256 ∧
    (storeAddress s).eeprom 1 = s.rx_addr % 256 := by
  simp only [storeAddress, eewrite, EE_DMX_ADDR_HI, EE_DMX_ADDR_LO, hi_byte, lo_byte]
  simp

/-! ## Claims on the stored address -/

/-- C8: for every pair of stored bytes `hi`, `lo` the base address the decoder
uses is `raw = hi * 256 + lo` clamped into `[1,510]`: `raw` itself when
`1 ≤ raw ≤ 510`, `1` when `raw = 0`, `510` when `raw > 510`; so it always lies
in `[1,510]`, and the channel addresses are the four consecutive values from
it. -/
theorem C8_load_clamps (s : State) (hi lo : Nat) (hhi : hi < 256) (hlo : lo < 256)
    (h0 : s.eeprom EE_DMX_ADDR_HI = hi) (h1 : s.eeprom EE_DMX_ADDR_LO = lo) :
    (loadAddress s).dmx_address =
        (if hi * 256 + lo = 0 then 1 else if hi * 256 + lo > 510 then 510 else hi * 256 + lo) ∧
    (1 ≤ (loadAddress s).dmx_address ∧ (loadAddress s).dmx_address ≤ 510) ∧
    channels (loadAddress s) =
      [(loadAddress s).dmx_address, (loadAddress s).dmx_address + 1,
       (loadAddress s).dmx_address + 2, (loadAddress s).dmx_address + 3] := by
  refine ⟨?_, loadAddress_range s, loadAddress_channels s⟩
  rw [loadAddress_dmx_address]
  simp only [EE_DMX_ADDR_HI, EE_DMX_ADDR_LO] at h0 h1
  rw [h0, h1, Nat.mod_eq_of_lt hhi, Nat.mod_eq_of_lt hlo]
  simp only
  split_ifs <;> omega

/-- C8 at the stored address 999 (`0x03`, `0xe7`): the decoder uses 510. -/
theorem C8_load_clamps_witness :
    (loadAddress stored999).dmx_address = 510 ∧
    channels (loadAddress stored999) = [510, 511, 512, 513] := by
  have h := C8_load_clamps stored999 0x03 0xe7 (by decide) (by decide) rfl rfl
  refine ⟨by simpa using h.1, ?_⟩
  have h1 : (loadAddress stored999).dmx_address = 510 := by simpa using h.1
  simpa [h1] using h.2.2

/-- C7: when the scan of the addressing procedure ends on an address `A` in
`[1,510]`, the procedure returns having written `(A >> 8) & 0xff` at offset 0
and `A & 0xff` at offset 1, and the load at startup from that EEPROM gives
base address `A` and channel addresses `A, A+1, A+2, A+3`. -/
theorem C7_round_trip (polls rest : List Poll) (s s1 : State) (A : Nat)
    (hA1 : 1 ≤ A) (hA2 : A ≤ 510)
    (hscan : scanLoop polls (scanEntry s) = ScanOutcome.found s1 rest)
    (haddr : s1.rx_addr = A) :
    ∃ s2, GetNewDmxAddress polls s = some s2 ∧
      s2.eeprom EE_DMX_ADDR_HI = (A >>> 8) &&& 0xff ∧
      s2.eeprom EE_DMX_ADDR_LO = A &&& 0xff ∧
      (loadAddress s2).dmx_address = A ∧
      channels (loadAddress s2) = [A, A + 1, A + 2, A + 3] := by
  obtain ⟨s2, hret, hee, _, _⟩ := confirmWindow_returns (storeAddress s1)
  obtain ⟨e0, e1⟩ := storeAddress_eeprom s1
  rw [haddr] at e0 e1
  have hd : (loadAddress s2).dmx_address = A := by
    rw [loadAddress_dmx_address, hee, e0, e1]
    simp only
    split_ifs <;> omega
  refine ⟨s2, ?_, ?_, ?_, hd, ?_⟩
  · simp only [GetNewDmxAddress, hscan]
    exact hret
  · rw [hee, hi_byte]; exact e0
  · rw [hee]
    have := lo_byte A
    rw [Nat.shiftRight_zero] at this
    rw [this]; exact e1
  · rw [loadAddress_channels, hd]

/-- C7 at `A = 37`: the channel addresses after the round trip are
37, 38, 39, 40. -/
theorem C7_round_trip_witness :
    ∃ s2, GetNewDmxAddress streamTo37 freshState = some s2 ∧
      s2.eeprom EE_DMX_ADDR_HI = (37 >>> 8) &&& 0xff ∧
      s2.eeprom EE_DMX_ADDR_LO = 37 &&& 0xff ∧
      (loadAddress s2).dmx_address = 37 ∧
      channels (loadAddress s2) = [37, 37 + 1, 37 + 2, 37 + 3] :=
  C7_round_trip streamTo37 [] freshState _ 37 (by decide) (by decide) rfl rfl

/-! ## The scan of the addressing procedure -/

/-- A tick of the scan changes only the LED, its phase counter and the timer
flag. -/
theorem scanTick_keeps (s : State) :
    (scanTick s).rx_state = s.rx_state ∧ (scanTick s).rx_addr = s.rx_addr ∧
    (scanTick s).eeprom = s.eeprom := by
  simp only [scanTick]
  split_ifs <;> simp

/-- The position is tracked across the timer part of a pass. -/
theorem Tracks_tick (pos : Option Nat) (s : State) (c : Bool) (h : Tracks pos s) :
    Tracks pos (if c then scanTick s else s) := by
  obtain ⟨k1, k2, _⟩ := scanTick_keeps s
  cases c
  · simpa using h
  · cases pos with
    | none => simpa [Tracks, k1] using h
    | some p => simpa [Tracks, k1, k2] using h

/-- The timer part of a pass leaves the EEPROM alone. -/
theorem scanTick_if_eeprom (s : State) (c : Bool) :
    (if c then scanTick s else s).eeprom = s.eeprom := by
  cases c
  · rfl
  · exact (scanTick_keeps s).2.2

/-- The scan leaves the loop exactly on an error-free character of value 255
read while seeking at an address in `[1,512]`. -/
theorem scanRx_stops_iff (b : RxByte) (s : State) :
    (scanRx b s).2 = true ↔
      b.ferr = false ∧ s.rx_state = 1 ∧ (1 ≤ s.rx_addr ∧ s.rx_addr ≤ 512) ∧
        b.data % 256 = 255 := by
  unfold scanRx
  cases hb : b.ferr
  · by_cases h1 : s.rx_state = 1
    · by_cases h2 : (s.rx_addr ≥ 1 ∧ s.rx_addr ≤ 512) ∧ b.data % 256 = 255
      · simp [h1, h2]
      · simp only [h1, h2, if_false, Bool.false_eq_true, if_true]
        have : ¬ ((1 ≤ s.rx_addr ∧ s.rx_addr ≤ 512) ∧ b.data % 256 = 255) := h2
        split_ifs <;> simp
    · simp [h1]
  · simp

/-- A character never changes the EEPROM during the scan. -/
theorem scanRx_eeprom (b : RxByte) (s : State) : (scanRx b s).1.eeprom = s.eeprom := by
  unfold scanRx
  simp only
  split_ifs <;> rfl

/-- A break restarts the position count. -/
theorem scanRx_break (b : RxByte) (s : State) (hb : b.ferr = true) :
    Tracks (some 0) (scanRx b s).1 := by
  simp [scanRx, hb, Tracks]

/-- An error-free character read before any break, or beyond position 512,
leaves the scan idle. -/
theorem scanRx_idle (b : RxByte) (s : State) (hb : b.ferr = false) (h : s.rx_state ≠ 1) :
    (scanRx b s).1.rx_state ≠ 1 := by
  simp [scanRx, hb, h]

/-- An error-free character that does not stop the scan moves the position
on by one. -/
theorem scanRx_advance (b : RxByte) (s : State) (p : Nat) (hb : b.ferr = false)
    (hp : p ≤ 512) (h1 : s.rx_state = 1) (h2 : s.rx_addr = p)
    (hns : ¬ (b.data % 256 = 255 ∧ 1 ≤ p ∧ p ≤ 512)) :
    Tracks (some (p + 1)) (scanRx b s).1 := by
  subst h2
  have e : (s.rx_addr + 1) % 65536 = s.rx_addr + 1 := Nat.mod_eq_of_lt (by omega)
  have hns2 : ¬ ((s.rx_addr ≥ 1 ∧ s.rx_addr ≤ 512) ∧ b.data % 256 = 255) := by tauto
  unfold scanRx
  simp only [hb, Bool.false_eq_true, if_false, h1, if_true, hns2, e]
  by_cases h512 : s.rx_addr + 1 > 512
  · simp only [h512, if_true, Tracks]
    rw [if_neg (by omega)]
    simp
  · simp only [h512, if_false, Tracks]
    rw [if_pos (by omega)]
    simp

/-- When the scan stops, `rx_addr` is the address it was seeking at. -/
theorem scanRx_stop_addr (b : RxByte) (s : State) (h : (scanRx b s).2 = true) :
    (scanRx b s).1.rx_addr = s.rx_addr := by
  obtain ⟨hb, h1, h2, h3⟩ := (scanRx_stops_iff b s).1 h
  have h4 : (s.rx_addr ≥ 1 ∧ s.rx_addr ≤ 512) ∧ b.data % 256 = 255 := ⟨h2, h3⟩
  simp [scanRx, hb, h1, h4]

/-- One pass of the scan that finds no character waiting. -/
theorem scanLoop_cons_none (t : Bool) (ps : List Poll) (s : State) :
    scanLoop (⟨none, t⟩ :: ps) s = scanLoop ps (if s.TMR1IF || t then scanTick s else s) :=
  rfl

/-- One pass of the scan that reads a character. -/
theorem scanLoop_cons_some (b : RxByte) (t : Bool) (ps : List Poll) (s : State) :
    scanLoop (⟨some b, t⟩ :: ps) s =
      if (scanRx b s).2 then ScanOutcome.found (scanRx b s).1 ps
      else scanLoop ps
        (if (scanRx b s).1.TMR1IF || t then scanTick (scanRx b s).1 else (scanRx b s).1) :=
  rfl

/-- A pass that reads a character without leaving the loop: agreement on the
rest of the stream gives agreement on the whole. -/
theorem ScanAgrees_step (pos pos' : Option Nat) (b : RxByte) (t : Bool) (ps : List Poll)
    (s : State) (hns : (scanRx b s).2 = false)
    (hspec : sentinelSearch pos (b :: received ps) =
      (sentinelSearch pos' (received ps)).map (fun r => (r.1 + 1, r.2)))
    (ih : ScanAgrees pos' ps
      (if (scanRx b s).1.TMR1IF || t then scanTick (scanRx b s).1 else (scanRx b s).1)) :
    ScanAgrees pos (⟨some b, t⟩ :: ps) s := by
  have hrec : received (⟨some b, t⟩ :: ps) = b :: received ps := rfl
  have hee := (scanTick_if_eeprom (scanRx b s).1 ((scanRx b s).1.TMR1IF || t)).trans
    (scanRx_eeprom b s)
  constructor
  · intro h
    rw [hrec, hspec, Option.map_eq_none'] at h
    obtain ⟨s', h1, h2⟩ := ih.1 h
    refine ⟨s', ?_, h2.trans hee⟩
    rw [scanLoop_cons_some, hns]
    exact h1
  · intro i p h
    rw [hrec, hspec, Option.map_eq_some'] at h
    obtain ⟨⟨i', p'⟩, h1, h2⟩ := h
    simp only [Prod.mk.injEq] at h2
    obtain ⟨rfl, rfl⟩ := h2
    obtain ⟨done, b', t', rest, s1, e1, e2, e3, e4, e5⟩ := ih.2 i' p' h1
    refine ⟨⟨some b, t⟩ :: done, b', t', rest, s1, by rw [e1]; rfl, ?_, ?_, e4, e5.trans hee⟩
    · show (b :: received done).length = i' + 1
      simp [e2]
    · rw [scanLoop_cons_some, hns]
      exact e3

/-- The scan loop agrees with the specification's search on every stream. -/
theorem scanLoop_agrees : ∀ (polls : List Poll) (pos : Option Nat) (s : State),
    Tracks pos s → ScanAgrees pos polls s := by
  intro polls
  induction polls with
  | nil =>
    intro pos s _
    refine ⟨fun _ => ⟨s, rfl, rfl⟩, ?_⟩
    intro i p h
    cases pos <;> simp [received, sentinelSearch] at h
  | cons q ps ih =>
    intro pos s htr
    obtain ⟨rx, t⟩ := q
    cases rx with
    | none =>
      have hrec : received (⟨none, t⟩ :: ps) = received ps := rfl
      have hee := scanTick_if_eeprom s (s.TMR1IF || t)
      obtain ⟨ih1, ih2⟩ := ih pos _ (Tracks_tick pos s (s.TMR1IF || t) htr)
      constructor
      · intro h
        rw [hrec] at h
        obtain ⟨s', h1, h2⟩ := ih1 h
        exact ⟨s', by rw [scanLoop_cons_none]; exact h1, h2.trans hee⟩
      · intro i p h
        rw [hrec] at h
        obtain ⟨done, b', t', rest, s1, e1, e2, e3, e4, e5⟩ := ih2 i p h
        exact ⟨⟨none, t⟩ :: done, b', t', rest, s1, by rw [e1]; rfl, e2,
          by rw [scanLoop_cons_none]; exact e3, e4, e5.trans hee⟩
    | some b =>
      cases hb : b.ferr with
      | true =>
        have hns : (scanRx b s).2 = false := by
          rw [Bool.eq_false_iff]
          intro h
          have := ((scanRx_stops_iff b s).1 h).1
          rw [hb] at this
          exact Bool.noConfusion this
        refine ScanAgrees_step pos (some 0) b t ps s hns ?_
          (ih _ _ (Tracks_tick _ _ _ (scanRx_break b s hb)))
        cases pos <;> simp [sentinelSearch, hb]
      | false =>
        cases pos with
        | none =>
          have hidle : s.rx_state ≠ 1 := htr
          have hns : (scanRx b s).2 = false := by
            rw [Bool.eq_false_iff]
            intro h
            exact hidle ((scanRx_stops_iff b s).1 h).2.1
          refine ScanAgrees_step none none b t ps s hns ?_
            (ih _ _ (Tracks_tick _ _ _ (scanRx_idle b s hb hidle)))
          simp [sentinelSearch, hb]
        | some p =>
          by_cases hp : p ≤ 512
          · have htr2 : s.rx_state = 1 ∧ s.rx_addr = p := by
              simpa [Tracks, hp] using htr
            by_cases hsen : b.data % 256 = 255 ∧ 1 ≤ p ∧ p ≤ 512
            · have hstop : (scanRx b s).2 = true :=
                (scanRx_stops_iff b s).2
                  ⟨hb, htr2.1, by rw [htr2.2]; exact hsen.2, hsen.1⟩
              have hspec : sentinelSearch (some p) (received (⟨some b, t⟩ :: ps))
                  = some (0, p) := by
                show sentinelSearch (some p) (b :: received ps) = some (0, p)
                simp [sentinelSearch, hb, hsen]
              constructor
              · intro h
                rw [hspec] at h
                exact Option.noConfusion h
              · intro i p' h
                rw [hspec] at h
                simp only [Option.some.injEq, Prod.mk.injEq] at h
                obtain ⟨rfl, rfl⟩ := h
                refine ⟨[], b, t, ps, (scanRx b s).1, rfl, rfl, ?_, ?_, scanRx_eeprom b s⟩
                · rw [scanLoop_cons_some, hstop]
                  rfl
                · rw [scanRx_stop_addr b s hstop]
                  exact htr2.2
            · have hns : (scanRx b s).2 = false := by
                rw [Bool.eq_false_iff]
                intro h
                obtain ⟨_, _, h3, h4⟩ := (scanRx_stops_iff b s).1 h
                rw [htr2.2] at h3
                exact hsen ⟨h4, h3⟩
              refine ScanAgrees_step (some p) (some (p + 1)) b t ps s hns ?_
                (ih _ _ (Tracks_tick _ _ _ (scanRx_advance b s p hb hp htr2.1 htr2.2 hsen)))
              simp [sentinelSearch, hb, hsen]
          · have hidle : s.rx_state ≠ 1 := by
              simpa [Tracks, hp] using htr
            have hns : (scanRx b s).2 = false := by
              rw [Bool.eq_false_iff]
              intro h
              exact hidle ((scanRx_stops_iff b s).1 h).2.1
            have hnext : Tracks (some (p + 1)) (scanRx b s).1 := by
              have := scanRx_idle b s hb hidle
              simp only [Tracks]
              rw [if_neg (by omega)]
              exact this
            refine ScanAgrees_step (some p) (some (p + 1)) b t ps s hns ?_
              (ih _ _ (Tracks_tick _ _ _ hnext))
            have hsen : ¬ (b.data % 256 = 255 ∧ 1 ≤ p ∧ p ≤ 512) := fun h => hp h.2.2
            simp [sentinelSearch, hb, hsen]

/-- On entry of the addressing procedure no break has been seen. -/
theorem scanEntry_tracks (s : State) : Tracks none (scanEntry s) := by
  simp [Tracks, scanEntry]

/-- What the specification's search returns is an error-free character of
value 255 at a position in `[1,512]`. -/
theorem sentinelSearch_sound : ∀ (bs : List RxByte) (pos : Option Nat) (i p : Nat),
    sentinelSearch pos bs = some (i, p) →
    (1 ≤ p ∧ p ≤ 512) ∧ ∃ b, bs[i]? = some b ∧ b.ferr = false ∧ b.data % 256 = 255 := by
  intro bs
  induction bs with
  | nil => intro pos i p h; cases pos <;> simp [sentinelSearch] at h
  | cons b bs ih =>
    intro pos i p h
    have step : ∀ pos', (sentinelSearch pos' bs).map (fun r => (r.1 + 1, r.2)) = some (i, p) →
        (1 ≤ p ∧ p ≤ 512) ∧ ∃ b', (b :: bs)[i]? = some b' ∧ b'.ferr = false ∧
          b'.data % 256 = 255 := by
      intro pos' h'
      rw [Option.map_eq_some'] at h'
      obtain ⟨⟨i', p'⟩, h1, h2⟩ := h'
      simp only [Prod.mk.injEq] at h2
      obtain ⟨rfl, rfl⟩ := h2
      obtain ⟨hr, b', hb1, hb2⟩ := ih pos' i' p' h1
      exact ⟨hr, b', by simpa using hb1, hb2⟩
    cases hb : b.ferr with
    | true =>
      apply step (some 0)
      cases pos <;> simpa [sentinelSearch, hb] using h
    | false =>
      cases pos with
      | none =>
        apply step none
        simpa [sentinelSearch, hb] using h
      | some q =>
        by_cases hsen : b.data % 256 = 255 ∧ 1 ≤ q ∧ q ≤ 512
        · have : (0, q) = (i, p) := by simpa [sentinelSearch, hb, hsen] using h
          simp only [Prod.mk.injEq] at this
          obtain ⟨rfl, rfl⟩ := this
          exact ⟨hsen.2, b, by simp, hb, hsen.1⟩
        · apply step (some (q + 1))
          simpa [sentinelSearch, hb, hsen] using h

/-- The characters read from a stream split at a pass that reads one. -/
theorem received_split (done rest : List Poll) (b : RxByte) (t : Bool) :
    received (done ++ ⟨some b, t⟩ :: rest) = received done ++ b :: received rest := by
  simp [received, List.filterMap_append, List.filterMap_cons]

/-- C5: on every input stream the scan of `GetNewDmxAddress` leaves its loop
in exactly the pass that reads the first error-free character of value 255
whose position `p` (error-free characters since the most recent break, start
code at 0) is in `[1,512]`; the procedure then returns with `p >> 8` at the
high offset and `p & 0xff` at the low offset and the four relays off.  A
character stops the scan only if it is error-free, of value 255, read while
seeking at an address in `[1,512]` (so not before the first break, not as
start code, not beyond 512), and while the scan has not stopped the EEPROM is
as it was. -/
theorem C5_scan_stops_at_first_sentinel (polls : List Poll) (s : State) :
    (∀ (b : RxByte) (u : State), (scanRx b u).2 = true ↔
        b.ferr = false ∧ u.rx_state = 1 ∧ (1 ≤ u.rx_addr ∧ u.rx_addr ≤ 512) ∧
          b.data % 256 = 255) ∧
    (sentinelSearch none (received polls) = none →
        GetNewDmxAddress polls s = none ∧
        ∃ s', scanLoop polls (scanEntry s) = ScanOutcome.scanning s' ∧ s'.eeprom = s.eeprom) ∧
    (∀ i p, sentinelSearch none (received polls) = some (i, p) →
        ∃ (done : List Poll) (b : RxByte) (t : Bool) (rest : List Poll) (s1 s2 : State),
          polls = done ++ ⟨some b, t⟩ :: rest ∧ (received done).length = i ∧
          (b.ferr = false ∧ b.data % 256 = 255 ∧ 1 ≤ p ∧ p ≤ 512) ∧
          scanLoop polls (scanEntry s) = ScanOutcome.found s1 rest ∧
          s1.rx_addr = p ∧ s1.eeprom = s.eeprom ∧
          GetNewDmxAddress polls s = some s2 ∧
          s2.eeprom EE_DMX_ADDR_HI = p >>> 8 ∧
          s2.eeprom EE_DMX_ADDR_LO = p &&& 0xff ∧
          (∀ a, a ≠ EE_DMX_ADDR_HI → a ≠ EE_DMX_ADDR_LO → s2.eeprom a = s.eeprom a) ∧
          relays s2 = [false, false, false, false]) := by
  obtain ⟨ag1, ag2⟩ := scanLoop_agrees polls none (scanEntry s) (scanEntry_tracks s)
  refine ⟨scanRx_stops_iff, ?_, ?_⟩
  · intro h
    obtain ⟨s', h1, h2⟩ := ag1 h
    refine ⟨?_, s', h1, h2⟩
    simp only [GetNewDmxAddress, h1]
  · intro i p h
    obtain ⟨done, b, t, rest, s1, e1, e2, e3, e4, e5⟩ := ag2 i p h
    obtain ⟨hr, b', hb1, hb2, hb3⟩ := sentinelSearch_sound _ _ _ _ h
    have hbb : b' = b := by
      rw [e1, received_split, List.getElem?_append_right (by omega), e2] at hb1
      simpa using hb1.symm
    subst hbb
    obtain ⟨s2, hret, hee, hrel, _⟩ := confirmWindow_returns (storeAddress s1)
    obtain ⟨w0, w1⟩ := storeAddress_eeprom s1
    rw [e4] at w0 w1
    refine ⟨done, b', t, rest, s1, s2, e1, e2, ⟨hb2, hb3, hr.1, hr.2⟩, e3, e4, e5, ?_, ?_, ?_,
      ?_, ?_⟩
    · simp only [GetNewDmxAddress, e3]
      exact hret
    · rw [hee, Nat.shiftRight_eq_div_pow]
      have e8 : (2 : Nat) ^ 8 = 256 := by norm_num
      rw [e8]
      show (storeAddress s1).eeprom 0 = p / 256
      rw [w0]
      exact Nat.mod_eq_of_lt (by omega)
    · rw [hee]
      have := lo_byte p
      rw [Nat.shiftRight_zero] at this
      rw [this]; exact w1
    · intro a ha0 ha1
      rw [hee]
      simp only [EE_DMX_ADDR_HI, EE_DMX_ADDR_LO] at ha0 ha1
      simp [storeAddress, eewrite, EE_DMX_ADDR_HI, EE_DMX_ADDR_LO, ha0, ha1]
      exact congrFun e5 a
    · rw [hrel]
      rfl

/-- C5 on a stream with a `0xff` before any break, a `0xff` start code and the
first `0xff` channel at position 2: address 2 is stored. -/
theorem C5_scan_stops_at_first_sentinel_witness :
    ∃ (done : List Poll) (b : RxByte) (t : Bool) (rest : List Poll) (s1 s2 : State),
      streamTo2 = done ++ ⟨some b, t⟩ :: rest ∧ (received done).length = 4 ∧
      (b.ferr = false ∧ b.data % 256 = 255 ∧ 1 ≤ 2 ∧ 2 ≤ 512) ∧
      scanLoop streamTo2 (scanEntry freshState) = ScanOutcome.found s1 rest ∧
      s1.rx_addr = 2 ∧ s1.eeprom = freshState.eeprom ∧
      GetNewDmxAddress streamTo2 freshState = some s2 ∧
      s2.eeprom EE_DMX_ADDR_HI = 2 >>> 8 ∧
      s2.eeprom EE_DMX_ADDR_LO = 2 &&& 0xff ∧
      (∀ a, a ≠ EE_DMX_ADDR_HI → a ≠ EE_DMX_ADDR_LO → s2.eeprom a = freshState.eeprom a) ∧
      relays s2 = [false, false, false, false] :=
  (C5_scan_stops_at_first_sentinel streamTo2 freshState).2.2 4 2 (by decide)

/-- C6 as stated fails: on the stream earlier break, break, `0x00`, `0xff` the
procedure returns with high byte 0 and low byte 1 in the EEPROM, not 2: the
`0x00` is the start code at position 0 and the `0xff` is channel 1. -/
theorem C6_counterexample :
    (GetNewDmxAddress streamExample freshState).map
        (fun s => (s.eeprom EE_DMX_ADDR_HI, s.eeprom EE_DMX_ADDR_LO)) = some (0, 1) ∧
    (GetNewDmxAddress streamExample freshState).map
        (fun s => (s.eeprom EE_DMX_ADDR_HI, s.eeprom EE_DMX_ADDR_LO)) ≠ some (0, 2) := by
  decide

/-- C6 amended: fed, after an earlier break, a break, an error-free `0x00` and
an error-free `0xff`, the addressing procedure (from any state, whatever the
timer does meanwhile) discovers address 1 and persists it: it returns with 0
at the high offset and 1 at the low offset, and the next load gives base
address 1.  Address 2, with 0 and 2 stored, is what it discovers when a start
code precedes the `0x00`. -/
theorem C6_example_stores_one (s : State) (d1 d2 sc : Nat) (t1 t2 t3 t4 t5 : Bool) :
    (∃ s2, GetNewDmxAddress
        [⟨some ⟨true, d1⟩, t1⟩, ⟨some ⟨true, d2⟩, t2⟩, ⟨some (chr 0x00), t3⟩,
         ⟨some (chr 0xff), t4⟩] s = some s2 ∧
      s2.eeprom EE_DMX_ADDR_HI = 0 ∧ s2.eeprom EE_DMX_ADDR_LO = 1 ∧
      (loadAddress s2).dmx_address = 1) ∧
    (∃ s2, GetNewDmxAddress
        [⟨some ⟨true, d1⟩, t1⟩, ⟨some ⟨true, d2⟩, t2⟩, ⟨some (chr sc), t5⟩,
         ⟨some (chr 0x00), t3⟩, ⟨some (chr 0xff), t4⟩] s = some s2 ∧
      s2.eeprom EE_DMX_ADDR_HI = 0 ∧ s2.eeprom EE_DMX_ADDR_LO = 2 ∧
      (loadAddress s2).dmx_address = 2) := by
  have key : ∀ (polls : List Poll) (i p : Nat), p < 256 → 1 ≤ p →
      sentinelSearch none (received polls) = some (i, p) →
      ∃ s2, GetNewDmxAddress polls s = some s2 ∧
        s2.eeprom EE_DMX_ADDR_HI = 0 ∧ s2.eeprom EE_DMX_ADDR_LO = p ∧
        (loadAddress s2).dmx_address = p := by
    intro polls i p hp hp1 hspec
    obtain ⟨_, _, _, rest, s1, _, _, e3, e4, _⟩ :=
      (scanLoop_agrees polls none (scanEntry s) (scanEntry_tracks s)).2 i p hspec
    obtain ⟨s2, hret, hee, _, _⟩ := confirmWindow_returns (storeAddress s1)
    obtain ⟨w0, w1⟩ := storeAddress_eeprom s1
    rw [e4] at w0 w1
    have h0 : s2.eeprom 0 = 0 := by rw [hee, w0]; omega
    have h1 : s2.eeprom 1 = p := by rw [hee, w1]; omega
    refine ⟨s2, ?_, h0, h1, ?_⟩
    · simp only [GetNewDmxAddress, e3]
      exact hret
    · rw [loadAddress_dmx_address, h0, h1]
      simp only
      split_ifs <;> omega
  refine ⟨key _ 3 1 (by norm_num) (by norm_num) ?_, key _ 4 2 (by norm_num) (by norm_num) ?_⟩
  · simp [received, sentinelSearch, chr]
  · simp [received, sentinelSearch, chr]

/-! ## The button check at power-on -/

/-- The sampling loop entered with `n + 1` passes to go returns; it ends with
`startup_timer = 0` exactly when the next `n + 1` samples are all low, and it
changes nothing but `startup_timer` and the timer flag. -/
theorem buttonLoop_returns (ra4 : Nat → Bool) (n : Nat) : ∀ (fuel k : Nat) (s : State),
    s.startup_timer = n + 1 → n + 1 < 256 → n < fuel →
    ∃ s', buttonLoop ra4 fuel k s = some s' ∧
      (s'.startup_timer = 0 ↔ ∀ j, j < n + 1 → ra4 (k + j) = false) ∧
      s' = { s with startup_timer := s'.startup_timer, TMR1IF := s'.TMR1IF } := by
  induction n with
  | zero =>
    intro fuel k s hs _ hf
    obtain ⟨f, rfl⟩ : ∃ f, fuel = f + 1 := ⟨fuel - 1, by omega⟩
    cases hk : ra4 k with
    | true =>
      refine ⟨{ s with TMR1IF := false, startup_timer := 255 }, by simp [buttonLoop, hk], ?_,
        rfl⟩
      simp only [OfNat.ofNat_ne_zero, false_iff, not_forall]
      exact ⟨0, by norm_num, by simp [hk]⟩
    | false =>
      refine ⟨{ s with TMR1IF := true, startup_timer := 0 }, by simp [buttonLoop, hk, hs], ?_,
        rfl⟩
      simp only [true_iff]
      intro j hj
      have : j = 0 := by omega
      subst this
      simpa using hk
  | succ n ih =>
    intro fuel k s hs hlt hf
    obtain ⟨f, rfl⟩ : ∃ f, fuel = f + 1 := ⟨fuel - 1, by omega⟩
    cases hk : ra4 k with
    | true =>
      refine ⟨{ s with TMR1IF := false, startup_timer := 255 }, by simp [buttonLoop, hk], ?_,
        rfl⟩
      simp only [OfNat.ofNat_ne_zero, false_iff, not_forall]
      exact ⟨0, by norm_num, by simp [hk]⟩
    | false =>
      have hz : (s.startup_timer + 255) % 256 = n + 1 := by rw [hs]; omega
      obtain ⟨s', h1, h2, h3⟩ := ih f (k + 1)
        { s with TMR1IF := true, startup_timer := (s.startup_timer + 255) % 256 }
        hz (by omega) (by omega)
      refine ⟨s', ?_, ?_, ?_⟩
      · rw [buttonLoop]
        simp only [hk, Bool.false_eq_true, if_false]
        rw [if_pos (by rw [hz]; omega)]
        exact h1
      · rw [h2]
        constructor
        · intro h j hj
          rcases Nat.eq_zero_or_pos j with rfl | hpos
          · simpa using hk
          · have := h (j - 1) (by omega)
            have e : k + 1 + (j - 1) = k + j := by omega
            rwa [e] at this
        · intro h j hj
          have := h (j + 1) (by omega)
          have e : k + (j + 1) = k + 1 + j := by omega
          rwa [e] at this
      · rw [h3]

/-- C9: at power-on the addressing procedure is called if and only if the
initial sample of the input pin and the samples at the start of each of the 50
following tick intervals are all low; with a high reading among them startup
goes straight to the load of the stored address.  The button check itself
always completes and leaves the EEPROM as it was. -/
theorem C9_addressing_gate (ee : Nat → Nat) (lata0 lata1 lata2 lata3 latb0 : Bool)
    (ra4 : Nat → Bool) (polls : List Poll) :
    ∃ (s1 : State) (held : Bool),
      buttonCheck ra4 (mainVars (Init (resetState ee lata0 lata1 lata2 lata3 latb0)))
        = some (s1, held) ∧
      (held = true ↔ ∀ k, k ≤ 50 → ra4 k = false) ∧
      s1.eeprom = ee ∧
      boot ee lata0 lata1 lata2 lata3 latb0 ra4 polls =
        (if held then (GetNewDmxAddress polls s1).map loadAddress
         else some (loadAddress s1)) := by
  cases h0 : ra4 0 with
  | true =>
    refine ⟨mainVars (Init (resetState ee lata0 lata1 lata2 lata3 latb0)), false,
      by simp [buttonCheck, h0], ?_, rfl, by simp [boot, buttonCheck, h0]⟩
    simp only [Bool.false_eq_true, false_iff, not_forall]
    exact ⟨0, by norm_num, by simp [h0]⟩
  | false =>
    obtain ⟨s', h1, h2, h3⟩ := buttonLoop_returns ra4 49 256 1
      { mainVars (Init (resetState ee lata0 lata1 lata2 lata3 latb0)) with startup_timer := 50 }
      rfl (by norm_num) (by norm_num)
    have hbc : buttonCheck ra4 (mainVars (Init (resetState ee lata0 lata1 lata2 lata3 latb0)))
        = some (s', decide (s'.startup_timer = 0)) := by
      simp only [buttonCheck, h0, if_true, h1]
    refine ⟨s', decide (s'.startup_timer = 0), hbc, ?_, by rw [h3]; rfl, ?_⟩
    · rw [decide_eq_true_iff, h2]
      constructor
      · intro h k hk
        rcases Nat.eq_zero_or_pos k with rfl | hpos
        · exact h0
        · have := h (k - 1) (by omega)
          have e : 1 + (k - 1) = k := by omega
          rwa [e] at this
      · intro h j hj
        exact h (1 + j) (by omega)
    · simp only [boot, hbc]
      cases decide (s'.startup_timer = 0) <;> rfl

/-! ## The `MODE_DMX_OK` branch: LED -/

/-- A character handled in `MODE_DMX_OK` touches neither the LED, its phase
counter, the mode, the timer flag, the channel addresses nor the EEPROM. -/
theorem okRx_keeps (b : RxByte) (s : State) :
    (okRx b s).LATB0 = s.LATB0 ∧ (okRx b s).green_led_timer = s.green_led_timer ∧
    (okRx b s).mode = s.mode ∧ (okRx b s).TMR1IF = s.TMR1IF ∧
    channels (okRx b s) = channels s ∧ (okRx b s).eeprom = s.eeprom := by
  unfold okRx
  simp only [channels]
  split_ifs <;> simp

/-- The phase counter after a tick in `MODE_DMX_OK`. -/
theorem okTick_phase (s : State) (h : s.green_led_timer < 50) :
    (okTick s).green_led_timer = (s.green_led_timer + 1) % 50 := by
  have e : (s.green_led_timer + 1) % 256 = s.green_led_timer + 1 := Nat.mod_eq_of_lt (by omega)
  by_cases hc : (s.count2 + 1) % 65536 = 500 <;>
    simp only [okTick, hc, if_true, if_false, e] <;>
    split_ifs <;> first | rfl | omega | (simp; done) | (simp; omega)

/-- The LED after a tick in `MODE_DMX_OK`: written at the ticks that bring the
phase counter to 1, 7, 13, 19 and left alone otherwise. -/
theorem okTick_led (s : State) (h : s.green_led_timer < 50) :
    (okTick s).LATB0 =
      (if s.green_led_timer + 1 = 1 ∨ s.green_led_timer + 1 = 13 then false
       else if s.green_led_timer + 1 = 7 ∨ s.green_led_timer + 1 = 19 then true
       else s.LATB0) := by
  have e : (s.green_led_timer + 1) % 256 = s.green_led_timer + 1 := Nat.mod_eq_of_lt (by omega)
  by_cases hc : (s.count2 + 1) % 65536 = 500 <;>
    simp only [okTick, hc, if_true, if_false, e] <;>
    split_ifs <;> first | rfl | omega

/-- The phase counter counts the ticks of a cycle. -/
theorem okEvents_phase : ∀ (evs : List Event) (s : State),
    s.green_led_timer + ticksIn evs < 50 →
    (okEvents evs s).green_led_timer = s.green_led_timer + ticksIn evs := by
  intro evs
  induction evs with
  | nil => intro s _; rfl
  | cons e es ih =>
    intro s h
    cases e with
    | rx b =>
      have hk := (okRx_keeps b s).2.1
      have := ih (okRx b s) (by rw [hk]; simpa [ticksIn] using h)
      rw [hk] at this
      simpa [okEvents, okEvent, ticksIn] using this
    | tick =>
      simp only [ticksIn] at h
      have hk := okTick_phase s (by omega)
      rw [Nat.mod_eq_of_lt (by omega)] at hk
      have := ih (okTick s) (by rw [hk]; omega)
      rw [hk] at this
      simp only [ticksIn]
      rw [show s.green_led_timer + (ticksIn es + 1) = s.green_led_timer + 1 + ticksIn es by omega]
      simpa [okEvents, okEvent] using this

/-- C10: starting with the phase counter at 0 and staying in `MODE_DMX_OK`,
the `n`-th tick of a run of 50 switches the LED on (`LATB0 = 0`) for `n = 1`
and `n = 13`, off for `n = 7` and `n = 19`, and leaves it as it is for every
other `n`; characters in between touch neither the LED nor the counter; the
counter equals the number of ticks so far and is `n % 50` after the `n`-th
tick, hence 0 again after the 50th. -/
theorem C10_blink_schedule (s : State) (evs : List Event)
    (h0 : s.green_led_timer = 0)
    (hstay : ∀ k, k ≤ evs.length → (okEvents (evs.take k) s).mode = MODE_DMX_OK)
    (hn : ticksIn evs < 50) :
    (okEvents evs s).green_led_timer = ticksIn evs ∧
    (okTick (okEvents evs s)).LATB0 =
      (if ticksIn evs + 1 = 1 ∨ ticksIn evs + 1 = 13 then false
       else if ticksIn evs + 1 = 7 ∨ ticksIn evs + 1 = 19 then true
       else (okEvents evs s).LATB0) ∧
    (okTick (okEvents evs s)).green_led_timer = (ticksIn evs + 1) % 50 ∧
    (∀ b, (okRx b (okEvents evs s)).LATB0 = (okEvents evs s).LATB0 ∧
          (okRx b (okEvents evs s)).green_led_timer = (okEvents evs s).green_led_timer) := by
  have _ := hstay
  have hp : (okEvents evs s).green_led_timer = ticksIn evs := by
    have := okEvents_phase evs s (by omega)
    omega
  refine ⟨hp, ?_, ?_, fun b => ⟨(okRx_keeps b _).1, (okRx_keeps b _).2.1⟩⟩
  · rw [okTick_led _ (by omega), hp]
  · rw [okTick_phase _ (by omega), hp]

/-- C10 at the seventh tick of a cycle: the LED goes off and the counter
reads 7. -/
theorem C10_blink_schedule_witness :
    (okTick (okEvents sixTicks freshState)).LATB0 = true ∧
    (okTick (okEvents sixTicks freshState)).green_led_timer = 7 := by
  have h := C10_blink_schedule freshState sixTicks rfl (by decide) (by decide)
  exact ⟨by simpa [show ticksIn sixTicks = 6 by decide] using h.2.1,
         by simpa [show ticksIn sixTicks = 6 by decide] using h.2.2.1⟩

/-! ## The `MODE_DMX_OK` branch: frames -/

/-- The channel addresses, one by one. -/
theorem channels_eq (s : State) (a b c d : Nat) (h : channels s = [a, b, c, d]) :
    s.rx_ch1_addr = a ∧ s.rx_ch2_addr = b ∧ s.rx_ch3_addr = c ∧ s.rx_ch4_addr = d := by
  simpa [channels] using h

/-- Reading below the end of a list extended by one element. -/
theorem getD_snoc_lt (hist : List Nat) (v i : Nat) (h : i < hist.length) :
    (hist ++ [v]).getD i 0 = hist.getD i 0 :=
  List.getD_append _ _ _ _ h

/-- Reading the element just appended. -/
theorem getD_snoc_eq (hist : List Nat) (v : Nat) : (hist ++ [v]).getD hist.length 0 = v := by
  rw [List.getD_append_right _ _ _ _ (le_refl _)]
  simp

/-- A tick in `MODE_DMX_OK` touches none of the receive variables. -/
theorem okTick_keeps (s : State) :
    (okTick s).rx_state = s.rx_state ∧ (okTick s).rx_addr = s.rx_addr ∧
    (okTick s).new_level_ch1 = s.new_level_ch1 ∧ (okTick s).new_level_ch2 = s.new_level_ch2 ∧
    (okTick s).new_level_ch3 = s.new_level_ch3 ∧ (okTick s).new_level_ch4 = s.new_level_ch4 ∧
    channels (okTick s) = channels s ∧ (okTick s).eeprom = s.eeprom := by
  by_cases hc : (s.count2 + 1) % 65536 = 500 <;>
    simp only [okTick, hc, if_true, if_false, channels] <;>
    split_ifs <;> simp

/-- A break starts a frame. -/
theorem okRx_break_seeking (A d : Nat) (s : State) (hch : channels s = [A, A + 1, A + 2, A + 3]) :
    Seeking A [] (okRx ⟨true, d⟩ s) := by
  obtain ⟨c1, c2, c3, c4⟩ := channels_eq s _ _ _ _ hch
  simp [Seeking, okRx, channels, c1, c2, c3, c4]

/-- A tick leaves the decoder where it is in the frame. -/
theorem okTick_seeking (A : Nat) (hist : List Nat) (s : State) (h : Seeking A hist s) :
    Seeking A hist (okTick s) := by
  obtain ⟨k1, k2, k3, k4, k5, _, k7, _⟩ := okTick_keeps s
  simpa only [Seeking, k1, k2, k3, k4, k5, k7] using h

/-- An error-free character read while seeking at a position within bounds
that is not the fourth channel address alone: the decoder keeps seeking, moves
one position on, stores the character in the pending level of the first
channel address that equals the position, and leaves the relays alone. -/
theorem okRx_data_fields (v : Nat) (s : State) (h1 : s.rx_state = 1) (hle : s.rx_addr ≤ 512)
    (hn4 : s.rx_addr = s.rx_ch4_addr →
      s.rx_addr = s.rx_ch1_addr ∨ s.rx_addr = s.rx_ch2_addr ∨ s.rx_addr = s.rx_ch3_addr) :
    (okRx ⟨false, v⟩ s).rx_state = 1 ∧
    (okRx ⟨false, v⟩ s).rx_addr = (s.rx_addr + 1) % 65536 ∧
    (okRx ⟨false, v⟩ s).new_level_ch1 =
      (if s.rx_addr = s.rx_ch1_addr then v % 256 else s.new_level_ch1) ∧
    (okRx ⟨false, v⟩ s).new_level_ch2 =
      (if s.rx_addr ≠ s.rx_ch1_addr ∧ s.rx_addr = s.rx_ch2_addr then v % 256
       else s.new_level_ch2) ∧
    (okRx ⟨false, v⟩ s).new_level_ch3 =
      (if s.rx_addr ≠ s.rx_ch1_addr ∧ s.rx_addr ≠ s.rx_ch2_addr ∧ s.rx_addr = s.rx_ch3_addr
       then v % 256 else s.new_level_ch3) ∧
    relays (okRx ⟨false, v⟩ s) = relays s := by
  unfold okRx
  simp only [Bool.false_eq_true, if_false, h1, hle, if_true, relays]
  by_cases a1 : s.rx_addr = s.rx_ch1_addr
  · simp [eq_true a1]
  · by_cases a2 : s.rx_addr = s.rx_ch2_addr
    · simp [eq_false a1, eq_true a2]
    · by_cases a3 : s.rx_addr = s.rx_ch3_addr
      · simp [eq_false a1, eq_false a2, eq_true a3]
      · have a4 : ¬ s.rx_addr = s.rx_ch4_addr := fun h => by
          rcases hn4 h with h | h | h
          · exact a1 h
          · exact a2 h
          · exact a3 h
        simp [eq_false a1, eq_false a2, eq_false a3, eq_false a4]

/-- An error-free character read while seeking at the fourth channel address
(and at none of the first three): the four relays are written from the three
pending levels and the character, and the decoder stops seeking. -/
theorem okRx_last_fields (v : Nat) (s : State) (h1 : s.rx_state = 1) (hle : s.rx_addr ≤ 512)
    (a1 : s.rx_addr ≠ s.rx_ch1_addr) (a2 : s.rx_addr ≠ s.rx_ch2_addr)
    (a3 : s.rx_addr ≠ s.rx_ch3_addr) (a4 : s.rx_addr = s.rx_ch4_addr) :
    relays (okRx ⟨false, v⟩ s) =
      [decide (s.new_level_ch1 ≥ 128), decide (s.new_level_ch2 ≥ 128),
       decide (s.new_level_ch3 ≥ 128), decide (v % 256 ≥ 128)] ∧
    (okRx ⟨false, v⟩ s).rx_state = 0 := by
  unfold okRx
  simp only [Bool.false_eq_true, if_false, h1, hle, if_true, relays]
  simp [eq_false a1, eq_false a2, eq_false a3, eq_true a4]

/-- An error-free character before the fourth channel address moves the
decoder one position on and is kept if it is at one of the first three channel
addresses. -/
theorem okRx_seeking (A v : Nat) (hist : List Nat) (s : State) (h : Seeking A hist s)
    (hlt : hist.length < A + 3) (hA : A + 3 ≤ 512) :
    Seeking A (hist ++ [v]) (okRx ⟨false, v⟩ s) ∧
    relays (okRx ⟨false, v⟩ s) = relays s := by
  obtain ⟨hch, h1, h2, l1, l2, l3⟩ := h
  obtain ⟨c1, c2, c3, c4⟩ := channels_eq s _ _ _ _ hch
  obtain ⟨f1, f2, f3, f4, f5, f6⟩ := okRx_data_fields v s h1 (by omega) (by omega)
  have hcs : channels (okRx ⟨false, v⟩ s) = channels s := (okRx_keeps _ s).2.2.2.2.1
  rw [h2, c1] at f3
  rw [h2, c1, c2] at f4
  rw [h2, c1, c2, c3] at f5
  rw [h2, Nat.mod_eq_of_lt (by omega)] at f2
  refine ⟨⟨hcs.trans hch, f1, by rw [f2]; simp, ?_, ?_, ?_⟩, f6⟩
  · intro hh
    rw [f3]
    simp only [List.length_append, List.length_singleton] at hh
    by_cases q : hist.length = A
    · rw [if_pos q, ← q, getD_snoc_eq]
    · rw [if_neg q, getD_snoc_lt hist v A (by omega)]
      exact l1 (by omega)
  · intro hh
    rw [f4]
    simp only [List.length_append, List.length_singleton] at hh
    by_cases q : hist.length = A + 1
    · rw [if_pos ⟨by omega, q⟩, ← q, getD_snoc_eq]
    · rw [if_neg (fun hq => q hq.2), getD_snoc_lt hist v _ (by omega)]
      exact l2 (by omega)
  · intro hh
    rw [f5]
    simp only [List.length_append, List.length_singleton] at hh
    by_cases q : hist.length = A + 2
    · rw [if_pos ⟨by omega, by omega, q⟩, ← q, getD_snoc_eq]
    · rw [if_neg (fun hq => q hq.2.2), getD_snoc_lt hist v _ (by omega)]
      exact l3 (by omega)

/-- Events are handled one after the other. -/
theorem okEvents_cons (e : Event) (es : List Event) (s : State) :
    okEvents (e :: es) s = okEvents es (okEvent e s) :=
  rfl

/-- Handling a sequence of events in two parts. -/
theorem okEvents_append (es fs : List Event) (s : State) :
    okEvents (es ++ fs) s = okEvents fs (okEvents es s) := by
  simp [okEvents, List.foldl_append]

/-- The error-free characters of two sequences in a row. -/
theorem dataOf_append (es fs : List Event) : dataOf (es ++ fs) = dataOf es ++ dataOf fs := by
  induction es with
  | nil => rfl
  | cons e es ih =>
    cases e with
    | rx b => cases hb : b.ferr <;> simp [dataOf, hb, ih]
    | tick => simpa [dataOf] using ih

/-- The error-free characters of a run of error-free characters. -/
theorem dataOf_map (bs : List Nat) :
    dataOf (bs.map (fun v => Event.rx ⟨false, v⟩)) = bs := by
  induction bs with
  | nil => rfl
  | cons b bs ih => simp [dataOf, ih]

/-- A run of error-free characters has no break. -/
theorem breaksIn_map (bs : List Nat) :
    breaksIn (bs.map (fun v => Event.rx ⟨false, v⟩)) = 0 := by
  induction bs with
  | nil => rfl
  | cons b bs ih => simp [breaksIn, ih]

/-- Inside a frame, before the fourth channel address, ticks and error-free
characters keep the decoder in step with the characters received. -/
theorem okEvents_seeking (A : Nat) (hA : A + 3 ≤ 512) : ∀ (mid : List Event) (hist : List Nat)
    (s : State), Seeking A hist s → breaksIn mid = 0 →
    hist.length + (dataOf mid).length ≤ A + 3 →
    Seeking A (hist ++ dataOf mid) (okEvents mid s) := by
  intro mid
  induction mid with
  | nil => intro hist s h _ _; simpa [dataOf, okEvents] using h
  | cons e es ih =>
    intro hist s h hb hl
    cases e with
    | tick =>
      simp only [breaksIn] at hb
      simp only [dataOf] at hl ⊢
      rw [okEvents_cons]
      exact ih hist _ (okTick_seeking A hist s h) hb hl
    | rx b =>
      obtain ⟨f, v⟩ := b
      cases f with
      | true => simp [breaksIn] at hb
      | false =>
        simp only [breaksIn, Bool.false_eq_true, if_false] at hb
        simp only [dataOf, Bool.false_eq_true, if_false, List.length_cons] at hl ⊢
        rw [okEvents_cons]
        have hs := (okRx_seeking A v hist s h (by omega) hA).1
        have hl2 : (hist ++ [v]).length + (dataOf es).length ≤ A + 3 := by
          rw [List.length_append, List.length_singleton]
          omega
        have := ih (hist ++ [v]) _ hs hb hl2
        rw [List.append_assoc, List.singleton_append] at this
        exact this

/-- A whole frame up to the fourth channel address: after the character at
that address the relays show the thresholded characters received at the four
channel addresses, and the decoder has stopped seeking. -/
theorem frame_writes (A d last : Nat) (s : State) (mid : List Event) (hA : A + 3 ≤ 512)
    (hch : channels s = [A, A + 1, A + 2, A + 3]) (hmid : breaksIn mid = 0)
    (hlen : (dataOf mid).length = A + 3) :
    relays (okEvents (Event.rx ⟨true, d⟩ :: mid ++ [Event.rx ⟨false, last⟩]) s) =
      [decide ((dataOf mid).getD A 0 % 256 ≥ 128),
       decide ((dataOf mid).getD (A + 1) 0 % 256 ≥ 128),
       decide ((dataOf mid).getD (A + 2) 0 % 256 ≥ 128),
       decide (last % 256 ≥ 128)] ∧
    (okEvents (Event.rx ⟨true, d⟩ :: mid ++ [Event.rx ⟨false, last⟩]) s).rx_state = 0 := by
  have h0 := okRx_break_seeking A d s hch
  have h1 := okEvents_seeking A hA mid [] _ h0 hmid (by simp [hlen])
  simp only [List.nil_append] at h1
  obtain ⟨hc, r1, r2, l1, l2, l3⟩ := h1
  obtain ⟨c1, c2, c3, c4⟩ := channels_eq _ _ _ _ _ hc
  have e : okEvents (Event.rx ⟨true, d⟩ :: mid ++ [Event.rx ⟨false, last⟩]) s
      = okRx ⟨false, last⟩ (okEvents mid (okRx ⟨true, d⟩ s)) := by
    rw [List.cons_append, okEvents_cons, okEvents_append]
    rfl
  rw [e]
  have := okRx_last_fields last (okEvents mid (okRx ⟨true, d⟩ s)) r1 (by omega)
    (by omega) (by omega) (by omega) (by omega)
  rw [l1 (by omega), l2 (by omega), l3 (by omega)] at this
  exact this

/-- Once the decoder has stopped seeking, an error-free character changes only
`rx_level` and the loss counter. -/
theorem okRx_not_seeking (b : RxByte) (s : State) (hb : b.ferr = false) (h : s.rx_state ≠ 1) :
    okRx b s = { s with rx_level := b.data % 256, count2 := 0 } := by
  simp [okRx, hb, h]

/-- Once the decoder has stopped seeking, a run of error-free characters
leaves the relays, the seeking flag and the mode as they are. -/
theorem okEvents_not_seeking : ∀ (bs : List Nat) (s : State), s.rx_state ≠ 1 →
    relays (okEvents (bs.map (fun v => Event.rx ⟨false, v⟩)) s) = relays s ∧
    (okEvents (bs.map (fun v => Event.rx ⟨false, v⟩)) s).rx_state = s.rx_state ∧
    (okEvents (bs.map (fun v => Event.rx ⟨false, v⟩)) s).mode = s.mode := by
  intro bs
  induction bs with
  | nil => intro s _; exact ⟨rfl, rfl, rfl⟩
  | cons b bs ih =>
    intro s h
    rw [List.map_cons, okEvents_cons]
    have e : okEvent (Event.rx ⟨false, b⟩) s = { s with rx_level := b % 256, count2 := 0 } :=
      okRx_not_seeking ⟨false, b⟩ s rfl h
    rw [e]
    exact ih _ h

/-- A run of characters leaves the mode as it is. -/
theorem okEvents_rx_mode : ∀ (bs : List RxByte) (s : State),
    (okEvents (bs.map Event.rx) s).mode = s.mode := by
  intro bs
  induction bs with
  | nil => intro s; rfl
  | cons b bs ih =>
    intro s
    rw [List.map_cons, okEvents_cons, ih]
    exact (okRx_keeps b s).2.2.1

/-- A list of bytes read at any index gives a byte. -/
theorem getD_byte (l : List Nat) (i : Nat) (h : ∀ v ∈ l, v < 256) : l.getD i 0 < 256 := by
  by_cases hi : i < l.length
  · rw [List.getD_eq_getElem _ _ hi]
    exact h _ (List.getElem_mem _)
  · rw [List.getD_eq_default _ _ (by omega)]
    norm_num

/-- C1: for every base address `A` in `[1,509]` and every state with channel
addresses `A .. A+3` in `MODE_DMX_OK`: when a break is handled and then,
without further break and with the mode staying `MODE_DMX_OK` (ticks
interleaved at will), the error-free bytes `vs = s, v1, .., v(A+3)` are
handled in order, then right after the last of them relay `k` is on exactly
when `v(A+k-1) ≥ 128`, for `k = 1..4`. -/
theorem C1_frame_drives_relays (A d last : Nat) (s : State) (mid : List Event) (vs : List Nat)
    (hA1 : 1 ≤ A) (hA2 : A ≤ 509)
    (hch : channels s = [A, A + 1, A + 2, A + 3])
    (hmid : breaksIn mid = 0)
    (hvs : dataOf (mid ++ [Event.rx ⟨false, last⟩]) = vs)
    (hlen : vs.length = A + 4)
    (hbyte : ∀ v ∈ vs, v < 256)
    (hstay : ∀ k, k ≤ (Event.rx ⟨true, d⟩ :: mid ++ [Event.rx ⟨false, last⟩]).length →
      (okEvents ((Event.rx ⟨true, d⟩ :: mid ++ [Event.rx ⟨false, last⟩]).take k) s).mode
        = MODE_DMX_OK) :
    relays (okEvents (Event.rx ⟨true, d⟩ :: mid ++ [Event.rx ⟨false, last⟩]) s) =
      [decide (vs.getD A 0 ≥ 128), decide (vs.getD (A + 1) 0 ≥ 128),
       decide (vs.getD (A + 2) 0 ≥ 128), decide (vs.getD (A + 3) 0 ≥ 128)] := by
  have _ := hstay
  have _ := hA1
  have hv : vs = dataOf mid ++ [last] := by
    rw [← hvs, dataOf_append]
    rfl
  have hl : (dataOf mid).length = A + 3 := by
    have := hlen
    rw [hv, List.length_append, List.length_singleton] at this
    omega
  have hb : ∀ i, vs.getD i 0 % 256 = vs.getD i 0 := fun i =>
    Nat.mod_eq_of_lt (getD_byte vs i hbyte)
  have g0 : vs.getD A 0 = (dataOf mid).getD A 0 := by
    rw [hv]; exact getD_snoc_lt _ _ _ (by omega)
  have g1 : vs.getD (A + 1) 0 = (dataOf mid).getD (A + 1) 0 := by
    rw [hv]; exact getD_snoc_lt _ _ _ (by omega)
  have g2 : vs.getD (A + 2) 0 = (dataOf mid).getD (A + 2) 0 := by
    rw [hv]; exact getD_snoc_lt _ _ _ (by omega)
  have g3 : vs.getD (A + 3) 0 = last := by
    rw [hv, ← hl]; exact getD_snoc_eq _ _
  rw [(frame_writes A d last s mid (by omega) hch hmid hl).1, ← g0, ← g1, ← g2, ← g3,
    hb, hb, hb, hb]

/-- C1 at base address 1 with the frame `0, 200, 10, 128, 127` and a tick in
the middle: the relays read on, off, on, off. -/
theorem C1_frame_drives_relays_witness :
    relays (okEvents (Event.rx brk :: midFrame ++ [Event.rx ⟨false, 127⟩]) base1State) =
      [true, false, true, false] :=
  C1_frame_drives_relays 1 0 127 base1State midFrame [0, 200, 10, 128, 127]
    (by decide) (by decide) (by decide) (by decide) (by decide) (by decide) (by decide)
    (by decide)

/-- C2 as stated fails: with base address 10 the channel addresses are
10 to 13, so after the frame `break, b0 .. b12` with `b9 = b10 = b11 = b12 =
255` the relays have not been written (they are all off as before), whereas
the claim has them all on after `b12`. -/
theorem C2_counterexample :
    channels base10State = [10, 11, 12, 13] ∧ base10State.mode = MODE_DMX_OK ∧
    relays (okEvents (frameEvents 0 (nineZeros ++ [255, 255, 255, 255])) base10State) ≠
      [decide (255 ≥ 128), decide (255 ≥ 128), decide (255 ≥ 128), decide (255 ≥ 128)] := by
  decide

/-- C2 amended: with base address 10 (channel addresses 10 to 13) and the
decoder in `MODE_DMX_OK`, for every frame made of a break followed by
error-free bytes `b0, b1, ..` with `b10 = L1`, `b11 = L2`, `b12 = L3`,
`b13 = L4`: right after `b13` the relays equal `[L1 ≥ 128, L2 ≥ 128,
L3 ≥ 128, L4 ≥ 128]`, and whatever error-free bytes follow before the next
break leave the relays at that value, the decoder not seeking, and the mode
`MODE_DMX_OK`. -/
theorem C2_base10_frame (s : State) (d L1 L2 L3 L4 : Nat) (b0to9 later : List Nat)
    (hch : channels s = [10, 11, 12, 13]) (hmode : s.mode = MODE_DMX_OK)
    (hlen : b0to9.length = 10)
    (hL : L1 < 256 ∧ L2 < 256 ∧ L3 < 256 ∧ L4 < 256) :
    relays (okEvents (frameEvents d (b0to9 ++ [L1, L2, L3, L4])) s) =
      [decide (L1 ≥ 128), decide (L2 ≥ 128), decide (L3 ≥ 128), decide (L4 ≥ 128)] ∧
    relays (okEvents (frameEvents d (b0to9 ++ [L1, L2, L3, L4] ++ later)) s) =
      [decide (L1 ≥ 128), decide (L2 ≥ 128), decide (L3 ≥ 128), decide (L4 ≥ 128)] ∧
    (okEvents (frameEvents d (b0to9 ++ [L1, L2, L3, L4] ++ later)) s).rx_state = 0 ∧
    (okEvents (frameEvents d (b0to9 ++ [L1, L2, L3, L4] ++ later)) s).mode = MODE_DMX_OK := by
  obtain ⟨b1, b2, b3, b4⟩ := hL
  have hsplit : frameEvents d (b0to9 ++ [L1, L2, L3, L4]) =
      Event.rx ⟨true, d⟩ :: (b0to9 ++ [L1, L2, L3]).map (fun v => Event.rx ⟨false, v⟩)
        ++ [Event.rx ⟨false, L4⟩] := by
    simp [frameEvents]
  have hd : dataOf ((b0to9 ++ [L1, L2, L3]).map (fun v => Event.rx ⟨false, v⟩))
      = b0to9 ++ [L1, L2, L3] := dataOf_map _
  have hw := frame_writes 10 d L4 s
    ((b0to9 ++ [L1, L2, L3]).map (fun v => Event.rx ⟨false, v⟩)) (by norm_num) hch
    (breaksIn_map _) (by rw [hd]; simp [hlen])
  rw [← hsplit, hd] at hw
  have g1 : (b0to9 ++ [L1, L2, L3]).getD 10 0 = L1 := by
    rw [List.getD_append_right _ _ _ _ (by omega), hlen]; rfl
  have g2 : (b0to9 ++ [L1, L2, L3]).getD (10 + 1) 0 = L2 := by
    rw [List.getD_append_right _ _ _ _ (by omega), hlen]; rfl
  have g3 : (b0to9 ++ [L1, L2, L3]).getD (10 + 2) 0 = L3 := by
    rw [List.getD_append_right _ _ _ _ (by omega), hlen]; rfl
  rw [g1, g2, g3, Nat.mod_eq_of_lt b1, Nat.mod_eq_of_lt b2, Nat.mod_eq_of_lt b3,
    Nat.mod_eq_of_lt b4] at hw
  have hlater : frameEvents d (b0to9 ++ [L1, L2, L3, L4] ++ later) =
      frameEvents d (b0to9 ++ [L1, L2, L3, L4]) ++ later.map (fun v => Event.rx ⟨false, v⟩) := by
    simp [frameEvents]
  have hns : (okEvents (frameEvents d (b0to9 ++ [L1, L2, L3, L4])) s).rx_state ≠ 1 := by
    rw [hw.2]; norm_num
  obtain ⟨n1, n2, n3⟩ := okEvents_not_seeking later _ hns
  have hm : (okEvents (frameEvents d (b0to9 ++ [L1, L2, L3, L4])) s).mode = s.mode := by
    have := okEvents_rx_mode (⟨true, d⟩ :: (b0to9 ++ [L1, L2, L3, L4]).map (fun v => ⟨false, v⟩)) s
    simpa [frameEvents, Function.comp_def] using this
  refine ⟨hw.1, ?_, ?_, ?_⟩
  · rw [hlater, okEvents_append, n1, hw.1]
  · rw [hlater, okEvents_append, n2, hw.2]
  · rw [hlater, okEvents_append, n3, hm, hmode]

/-- C2 amended, at the frame with `b0 .. b9 = 0`, `b10 .. b13 = 255, 0, 128,
127` and two more bytes. -/
theorem C2_base10_frame_witness :
    relays (okEvents (frameEvents 0 (tenZeros ++ [255, 0, 128, 127] ++ [255, 255])) base10State) =
      [true, false, true, false] := by
  have h := (C2_base10_frame base10State 0 255 0 128 127 tenZeros [255, 255]
    (by decide) (by decide) (by decide) (by decide)).2.1
  simpa using h

/-! ## The `MODE_DMX_LOST` branch -/

/-- Events are handled one after the other. -/
theorem lostEvents_cons (e : Event) (es : List Event) (s : State) :
    lostEvents (e :: es) s = lostEvents es (lostEvent e s) :=
  rfl

/-- Handling a sequence of events in two parts. -/
theorem lostEvents_append (es fs : List Event) (s : State) :
    lostEvents (es ++ fs) s = lostEvents fs (lostEvents es s) := by
  simp [lostEvents, List.foldl_append]

/-- One pass through the `MODE_DMX_LOST` branch is a tick followed by the
characters drained, and ends with the timer flag set. -/
theorem lostIter_eq_lostEvents (drain : List RxByte) (s : State) :
    lostIter drain s =
      { lostEvents (Event.tick :: drain.map Event.rx) s with TMR1IF := true } := by
  simp [lostIter, lostDrain, lostEvents, lostEvent, List.foldl_map]

/-- The start of a tick interval: mode and relays are kept, the counter is
kept or cleared. -/
theorem lostArm_fields (s : State) :
    (lostArm s).mode = s.mode ∧ relays (lostArm s) = relays s ∧
    (lostArm s).count = (if s.timer = 6 then 0 else s.count) ∧
    (lostArm s).timer = (if s.timer = 6 then 6 else (s.timer + 1) % 256) ∧
    (lostArm s).count2 = s.count2 := by
  by_cases h : s.timer = 6 <;> simp [lostArm, relays, h]

/-- A character in the drain loop. -/
theorem lostRx_fields (b : RxByte) (s : State) :
    relays (lostRx b s) = relays s ∧ (lostRx b s).count2 = s.count2 ∧
    (lostRx b s).mode =
      (if b.ferr = true ∧ (s.count + 1) % 256 = 50 then MODE_DMX_OK else s.mode) ∧
    (lostRx b s).count =
      (if b.ferr = true then (if (s.count + 1) % 256 = 50 then 0 else (s.count + 1) % 256)
       else s.count) ∧
    (lostRx b s).timer = (if b.ferr = true then 0 else s.timer) := by
  cases hb : b.ferr
  · simp [lostRx, relays, hb]
  · by_cases h : (s.count + 1) % 256 = 50 <;> simp [lostRx, relays, hb, h]

/-- Breaks in two sequences in a row. -/
theorem breaksIn_append (es fs : List Event) :
    breaksIn (es ++ fs) = breaksIn es + breaksIn fs := by
  induction es with
  | nil => simp [breaksIn]
  | cons e es ih =>
    cases e with
    | rx b =>
      cases hb : b.ferr
      · simp [breaksIn, hb, ih]
      · have e : breaksIn (Event.rx b :: (es ++ fs)) = breaksIn (es ++ fs) + 1 := by
          simp [breaksIn, hb]
        have e2 : breaksIn (Event.rx b :: es) = breaksIn es + 1 := by simp [breaksIn, hb]
        rw [List.cons_append, e, e2, ih]
        omega
    | tick => simpa [breaksIn] using ih

/-- A part of a sequence has no more breaks than the whole. -/
theorem breaksIn_take_le (es : List Event) (k : Nat) : breaksIn (es.take k) ≤ breaksIn es := by
  have h := breaksIn_append (es.take k) (es.drop k)
  rw [List.take_append_drop] at h
  omega

/-- While fewer than 50 breaks have been counted the mode stays
`MODE_DMX_LOST`. -/
theorem lostEvents_stays_lost : ∀ (evs : List Event) (s : State),
    s.mode = MODE_DMX_LOST → s.count + breaksIn evs < 50 →
    (lostEvents evs s).mode = MODE_DMX_LOST := by
  intro evs
  induction evs with
  | nil => intro s h _; exact h
  | cons e es ih =>
    intro s hm hc
    rw [lostEvents_cons]
    cases e with
    | tick =>
      obtain ⟨f1, _, f3, _, _⟩ := lostArm_fields s
      simp only [breaksIn] at hc
      refine ih (lostArm s) (f1.trans hm) ?_
      show (lostArm s).count + breaksIn es < 50
      rw [f3]
      split_ifs <;> omega
    | rx b =>
      obtain ⟨_, _, f3, f4, _⟩ := lostRx_fields b s
      cases hb : b.ferr with
      | false =>
        simp only [breaksIn, hb, Bool.false_eq_true, if_false] at hc
        simp only [hb, Bool.false_eq_true, false_and, if_false] at f3 f4
        refine ih (lostRx b s) (f3.trans hm) ?_
        show (lostRx b s).count + breaksIn es < 50
        rw [f4]; exact hc
      | true =>
        simp only [breaksIn, hb, if_true] at hc
        have hne : (s.count + 1) % 256 ≠ 50 := by omega
        simp only [hb, true_and, if_true, hne, if_false] at f3 f4
        refine ih (lostRx b s) (f3.trans hm) ?_
        show (lostRx b s).count + breaksIn es < 50
        rw [f4]; omega

/-- Break spacing over two sequences in a row. -/
theorem gapsBelow_append (n : Nat) : ∀ (es fs : List Event) (since : Option Nat),
    gapsBelow n since (es ++ fs) =
      (gapsBelow n since es && gapsBelow n (sinceAfter since es) fs) := by
  intro es
  induction es with
  | nil => intro fs since; simp [gapsBelow, sinceAfter]
  | cons e es ih =>
    intro fs since
    cases e with
    | tick => simp [gapsBelow, sinceAfter, ih]
    | rx b => cases hb : b.ferr <;> simp [gapsBelow, sinceAfter, hb, ih, Bool.and_assoc]

/-- With fewer than 6 ticks between consecutive breaks the counter is never
cleared between them: up to 49 breaks, it holds exactly the number of breaks
received. -/
theorem lostEvents_counted : ∀ (evs : List Event) (since : Option Nat) (c : Nat) (s : State),
    Counted since c s → gapsBelow 6 since evs = true → c + breaksIn evs ≤ 49 →
    Counted (sinceAfter since evs) (c + breaksIn evs) (lostEvents evs s) := by
  intro evs
  induction evs with
  | nil => intro since c s h _ _; simpa [sinceAfter, breaksIn, lostEvents] using h
  | cons e es ih =>
    intro since c s h hg hc
    rw [lostEvents_cons]
    cases e with
    | tick =>
      obtain ⟨f1, _, f3, f4, _⟩ := lostArm_fields s
      simp only [breaksIn] at hc ⊢
      simp only [gapsBelow] at hg
      simp only [sinceAfter]
      refine ih _ c (lostArm s) ?_ hg hc
      obtain ⟨hm, hs⟩ := h
      refine ⟨f1.trans hm, ?_⟩
      cases since with
      | none =>
        obtain ⟨hs1, hs2⟩ := hs
        refine ⟨?_, hs2⟩
        show (lostArm s).count = 0
        rw [f3]; split_ifs <;> simp [hs1]
      | some k =>
        intro hk
        have hk' : k + 1 ≤ 6 := hk
        obtain ⟨t1, t2⟩ := hs (by omega)
        have hne : s.timer ≠ 6 := by omega
        show (lostArm s).timer = k + 1 ∧ (lostArm s).count = c
        rw [f3, f4, if_neg hne, if_neg hne, t1, t2]
        exact ⟨Nat.mod_eq_of_lt (by omega), rfl⟩
    | rx b =>
      obtain ⟨_, _, f3, f4, f5⟩ := lostRx_fields b s
      obtain ⟨hm, hs⟩ := h
      cases hb : b.ferr with
      | false =>
        simp only [breaksIn, hb, Bool.false_eq_true, if_false] at hc ⊢
        simp only [gapsBelow, hb, Bool.false_eq_true, if_false] at hg
        simp only [sinceAfter, hb, Bool.false_eq_true, if_false]
        simp only [hb, Bool.false_eq_true, false_and, if_false] at f3 f4 f5
        refine ih since c (lostRx b s) ⟨f3.trans hm, ?_⟩ hg hc
        cases since with
        | none =>
          show (lostRx b s).count = 0 ∧ c = 0
          rw [f4]; exact hs
        | some k =>
          show k ≤ 6 → (lostRx b s).timer = k ∧ (lostRx b s).count = c
          rw [f4, f5]; exact hs
      | true =>
        simp only [breaksIn, hb, if_true] at hc ⊢
        simp only [gapsBelow, hb, if_true, Bool.and_eq_true] at hg
        simp only [sinceAfter, hb, if_true]
        simp only [hb, true_and, if_true] at f3 f4 f5
        have hcount : s.count = c := by
          cases since with
          | none => obtain ⟨hs1, hs2⟩ := hs; rw [hs1, hs2]
          | some k =>
            have hk : k < 6 := by simpa using hg.1
            exact (hs (by omega)).2
        have hne : (s.count + 1) % 256 ≠ 50 := by rw [hcount]; omega
        rw [if_neg hne] at f3 f4
        have := ih (some 0) (c + 1) (lostRx b s) ⟨f3.trans hm, fun _ => ⟨f5, by
          rw [f4, hcount]; exact Nat.mod_eq_of_lt (by omega)⟩⟩ hg.2 (by omega)
        rw [show c + (breaksIn es + 1) = c + 1 + breaksIn es by omega]
        exact this

/-- Characters drained after the mode has become `MODE_DMX_OK` leave it so. -/
theorem lostDrain_keeps_ok : ∀ (bs : List RxByte) (s : State), s.mode = MODE_DMX_OK →
    (lostDrain bs s).mode = MODE_DMX_OK := by
  intro bs
  induction bs with
  | nil => intro s h; exact h
  | cons b bs ih =>
    intro s h
    have f3 := (lostRx_fields b s).2.2.1
    refine ih (lostRx b s) ?_
    rw [f3, h]
    split_ifs <;> rfl

/-- C3: starting in `MODE_DMX_LOST` with the break counter at 0, on every
sequence of ticks, error-free bytes and breaks whose first 50 breaks have
fewer than 6 ticks between consecutive ones (`pre` holds the first 49, then
comes the 50th), the mode is still `MODE_DMX_LOST` after every event up to and
including the 49th break and whatever precedes the 50th, becomes
`MODE_DMX_OK` when the 50th break is handled (the counter going back to 0),
and stays `MODE_DMX_OK` while the rest of that tick interval is drained. -/
theorem C3_fifty_breaks (s : State) (pre : List Event) (d : Nat) (tl : List RxByte)
    (hmode : s.mode = MODE_DMX_LOST) (hcount : s.count = 0)
    (h49 : breaksIn pre = 49)
    (hgap : gapsBelow 6 none (pre ++ [Event.rx ⟨true, d⟩]) = true) :
    (∀ k, k ≤ pre.length → (lostEvents (pre.take k) s).mode = MODE_DMX_LOST) ∧
    (lostEvents (pre ++ [Event.rx ⟨true, d⟩]) s).mode = MODE_DMX_OK ∧
    (lostEvents (pre ++ [Event.rx ⟨true, d⟩]) s).count = 0 ∧
    (lostDrain tl (lostEvents (pre ++ [Event.rx ⟨true, d⟩]) s)).mode = MODE_DMX_OK := by
  have hfirst : ∀ k, k ≤ pre.length → (lostEvents (pre.take k) s).mode = MODE_DMX_LOST := by
    intro k _
    have := breaksIn_take_le pre k
    exact lostEvents_stays_lost _ s hmode (by omega)
  rw [gapsBelow_append, Bool.and_eq_true] at hgap
  have hc := lostEvents_counted pre none 0 s ⟨hmode, hcount, rfl⟩ hgap.1 (by omega)
  rw [Nat.zero_add, h49] at hc
  obtain ⟨_, hs⟩ := hc
  have h49c : (lostEvents pre s).count = 49 := by
    cases hsince : sinceAfter none pre with
    | none =>
      rw [hsince] at hs
      exact absurd hs.2 (by norm_num)
    | some k =>
      rw [hsince] at hs
      have hk := hgap.2
      rw [hsince] at hk
      have hk6 : k < 6 := by simpa [gapsBelow] using hk
      exact (hs (by omega)).2
  obtain ⟨_, _, f3, f4, _⟩ := lostRx_fields ⟨true, d⟩ (lostEvents pre s)
  rw [h49c] at f3 f4
  have e : lostEvents (pre ++ [Event.rx ⟨true, d⟩]) s = lostRx ⟨true, d⟩ (lostEvents pre s) := by
    rw [lostEvents_append]; rfl
  have hok : (lostEvents (pre ++ [Event.rx ⟨true, d⟩]) s).mode = MODE_DMX_OK := by
    rw [e, f3]; rfl
  refine ⟨hfirst, hok, ?_, lostDrain_keeps_ok tl _ hok⟩
  rw [e, f4]; rfl

/-- C3 on 49 tick intervals with one break each, followed by a 50th break:
the mode becomes `MODE_DMX_OK`. -/
theorem C3_fifty_breaks_witness :
    (lostEvents (fortyNineBreaks ++ [Event.rx ⟨true, 0⟩]) lostState).mode = MODE_DMX_OK :=
  (C3_fifty_breaks lostState fortyNineBreaks 0 [brk, chr 1] rfl rfl (by decide)
    (by decide)).2.1

/-! ## From power-on to the main loop -/

/-- The scan loop touches neither the variables of the main loop nor the
relays. -/
theorem scanLoop_frame : ∀ (polls : List Poll) (s : State),
    ctl (scanLoop polls s).state = ctl s ∧ relays (scanLoop polls s).state = relays s := by
  have hrx : ∀ (b : RxByte) (s : State),
      ctl (scanRx b s).1 = ctl s ∧ relays (scanRx b s).1 = relays s := by
    intro b s
    unfold scanRx
    simp only [ctl, relays]
    split_ifs <;> simp
  have htk : ∀ (c : Bool) (s : State),
      ctl (if c then scanTick s else s) = ctl s ∧
      relays (if c then scanTick s else s) = relays s := by
    intro c s
    cases c
    · exact ⟨rfl, rfl⟩
    · simp only [if_true, scanTick, ctl, relays]
      split_ifs <;> simp
  intro polls
  induction polls with
  | nil => intro s; exact ⟨rfl, rfl⟩
  | cons q ps ih =>
    intro s
    obtain ⟨rx, t⟩ := q
    cases rx with
    | none =>
      rw [scanLoop_cons_none]
      obtain ⟨i1, i2⟩ := ih (if s.TMR1IF || t then scanTick s else s)
      obtain ⟨t1, t2⟩ := htk (s.TMR1IF || t) s
      exact ⟨i1.trans t1, i2.trans t2⟩
    | some b =>
      rw [scanLoop_cons_some]
      obtain ⟨r1, r2⟩ := hrx b s
      cases hstop : (scanRx b s).2 with
      | true => exact ⟨r1, r2⟩
      | false =>
        simp only [Bool.false_eq_true, if_false]
        obtain ⟨i1, i2⟩ := ih
          (if (scanRx b s).1.TMR1IF || t then scanTick (scanRx b s).1 else (scanRx b s).1)
        obtain ⟨t1, t2⟩ := htk ((scanRx b s).1.TMR1IF || t) (scanRx b s).1
        exact ⟨i1.trans (t1.trans r1), i2.trans (t2.trans r2)⟩

/-- The confirmation loop touches none of the variables of the main loop. -/
theorem confirmLoop_ctl : ∀ (fuel : Nat) (s s' : State),
    confirmLoop fuel s = some s' → ctl s' = ctl s := by
  intro fuel
  induction fuel with
  | zero => intro s s' h; simp [confirmLoop] at h
  | succ f ih =>
    intro s s' h
    have hp : ctl ({ confirmPass s with
        startup_timer := ((confirmPass s).startup_timer + 255) % 256 } : State) = ctl s := by
      simp only [confirmPass, ctl]
      split_ifs <;> rfl
    have h' : (if ((confirmPass s).startup_timer + 255) % 256 ≠ 0 then
        confirmLoop f { confirmPass s with
          startup_timer := ((confirmPass s).startup_timer + 255) % 256 }
        else some { confirmPass s with
          startup_timer := ((confirmPass s).startup_timer + 255) % 256 }) = some s' := h
    by_cases hz : ((confirmPass s).startup_timer + 255) % 256 ≠ 0
    · rw [if_pos hz] at h'
      exact (ih _ s' h').trans hp
    · rw [if_neg hz] at h'
      rw [← Option.some.inj h']
      exact hp

/-- When `GetNewDmxAddress` returns, it has left the variables of the main
loop alone and the relays off. -/
theorem GetNewDmxAddress_frame (polls : List Poll) (s s2 : State)
    (h : GetNewDmxAddress polls s = some s2) :
    ctl s2 = ctl s ∧ relays s2 = [false, false, false, false] := by
  unfold GetNewDmxAddress at h
  have hf := (scanLoop_frame polls (scanEntry s)).1
  cases hsc : scanLoop polls (scanEntry s) with
  | scanning u => rw [hsc] at h; exact Option.noConfusion h
  | found s1 rest =>
    rw [hsc] at h hf
    simp only at h
    have h1 : ctl s1 = ctl s := hf
    obtain ⟨s', hret, _, hrel, _⟩ := confirmWindow_returns (storeAddress s1)
    have h2 : ctl s2 = ctl (storeAddress s1) := by
      have := confirmLoop_ctl 256 _ s2 h
      exact this
    rw [hret] at h
    have hs : s' = s2 := by simpa using h
    subst hs
    exact ⟨h2.trans h1, hrel⟩

/-- The button check leaves the variables of the main loop and the relays
alone. -/
theorem buttonCheck_frame (ra4 : Nat → Bool) (s s1 : State) (held : Bool)
    (h : buttonCheck ra4 s = some (s1, held)) :
    ctl s1 = ctl s ∧ relays s1 = relays s := by
  unfold buttonCheck at h
  cases h0 : ra4 0 with
  | true =>
    simp only [h0, Bool.true_eq_false, if_false, Option.some.injEq, Prod.mk.injEq] at h
    rw [← h.1]
    exact ⟨rfl, rfl⟩
  | false =>
    obtain ⟨s', e1, _, e3⟩ := buttonLoop_returns ra4 49 256 1 { s with startup_timer := 50 }
      rfl (by norm_num) (by norm_num)
    simp only [h0, if_true, e1, Option.some.injEq, Prod.mk.injEq] at h
    rw [← h.1, e3]
    exact ⟨rfl, rfl⟩

/-- At the first pass of the main loop the mode is `MODE_DMX_OK`, all
counters are 0 and the relays are off. -/
theorem boot_frame (ee : Nat → Nat) (lata0 lata1 lata2 lata3 latb0 : Bool)
    (ra4 : Nat → Bool) (polls : List Poll) (s : State)
    (h : boot ee lata0 lata1 lata2 lata3 latb0 ra4 polls = some s) :
    ctl s = (MODE_DMX_OK, 0, 0, 0, 0) ∧ relays s = [false, false, false, false] := by
  unfold boot at h
  cases hb : buttonCheck ra4 (mainVars (Init (resetState ee lata0 lata1 lata2 lata3 latb0))) with
  | none => rw [hb] at h; exact Option.noConfusion h
  | some r =>
    obtain ⟨s1, held⟩ := r
    obtain ⟨b1, b2⟩ := buttonCheck_frame ra4 _ s1 held hb
    rw [hb] at h
    cases held with
    | false =>
      simp only [Option.some.injEq] at h
      rw [← h]
      exact ⟨b1, b2⟩
    | true =>
      simp only [Option.map_eq_some'] at h
      obtain ⟨s2, g1, g2⟩ := h
      obtain ⟨k1, k2⟩ := GetNewDmxAddress_frame polls s1 s2 g1
      rw [← g2]
      exact ⟨k1.trans b1, k2⟩

/-! ## The loss timeout -/

/-- Passes of the main loop are made one after the other. -/
theorem run_cons (i : LoopInput) (inps : List LoopInput) (s : State) :
    run (i :: inps) s = run inps (mainIter i s) :=
  rfl

/-- The tick that brings the loss counter to 500 clears the relays and the
counter and switches to `MODE_DMX_LOST`. -/
theorem okTick_timeout (s : State) (h : (s.count2 + 1) % 65536 = 500) :
    (okTick s).mode = MODE_DMX_LOST ∧ relays (okTick s) = [false, false, false, false] ∧
    (okTick s).count2 = 0 ∧ (okTick s).count = s.count ∧ (okTick s).TMR1IF = false := by
  simp only [okTick, h, if_true, relays]
  split_ifs <;> simp

/-- Any other tick advances the loss counter and leaves mode and relays. -/
theorem okTick_no_timeout (s : State) (h : (s.count2 + 1) % 65536 ≠ 500) :
    (okTick s).mode = s.mode ∧ relays (okTick s) = relays s ∧
    (okTick s).count2 = (s.count2 + 1) % 65536 ∧ (okTick s).count = s.count ∧
    (okTick s).TMR1IF = false := by
  simp only [okTick, h, if_false, relays]
  split_ifs <;> simp

/-- The loss counter after a character in `MODE_DMX_OK`. -/
theorem okRx_count2 (b : RxByte) (s : State) :
    (okRx b s).count2 = (if b.ferr = true then s.count2 else 0) := by
  unfold okRx
  cases hb : b.ferr
  · simp only [Bool.false_eq_true, if_false]
    split_ifs <;> simp
  · simp

/-- The drain loop touches neither the loss counter nor the relays. -/
theorem lostDrain_frame : ∀ (bs : List RxByte) (s : State),
    (lostDrain bs s).count2 = s.count2 ∧ relays (lostDrain bs s) = relays s := by
  intro bs
  induction bs with
  | nil => intro s; exact ⟨rfl, rfl⟩
  | cons b bs ih =>
    intro s
    obtain ⟨f1, f2, _⟩ := lostRx_fields b s
    obtain ⟨i1, i2⟩ := ih (lostRx b s)
    exact ⟨i1.trans f2, i2.trans f1⟩

/-- A pass of the main loop keeps the loss counter below 500. -/
theorem mainIter_count2 (inp : LoopInput) (s : State) (h : s.count2 < 500) :
    (mainIter inp s).count2 < 500 := by
  unfold mainIter
  by_cases hl : s.mode = MODE_DMX_LOST
  · rw [if_pos hl]
    show (lostDrain inp.drain (lostArm s)).count2 < 500
    rw [(lostDrain_frame _ _).1, (lostArm_fields s).2.2.2.2]
    exact h
  · rw [if_neg hl]
    by_cases ho : s.mode = MODE_DMX_OK
    · rw [if_pos ho]
      have hstep : ∀ u : State, u.count2 < 500 → (okTick u).count2 < 500 := by
        intro u hu
        by_cases hc : (u.count2 + 1) % 65536 = 500
        · rw [(okTick_timeout u hc).2.2.1]; norm_num
        · rw [(okTick_no_timeout u hc).2.2.1]
          rw [Nat.mod_eq_of_lt (by omega)] at hc ⊢
          omega
      have hrx : ∀ b : RxByte, (okRx b s).count2 < 500 := by
        intro b
        rw [okRx_count2]
        split_ifs
        · exact h
        · norm_num
      unfold okIter
      cases inp.rx with
      | none =>
        simp only
        split_ifs
        · exact hstep s h
        · exact h
      | some b =>
        simp only
        split_ifs
        · exact hstep _ (hrx b)
        · exact hrx b
    · rw [if_neg ho]
      exact h

/-- In every state reached at the top of the main loop the loss counter is
below 500. -/
theorem reachable_count2 (s : State) (h : Reachable s) : s.count2 < 500 := by
  induction h with
  | start ee l0 l1 l2 l3 lb ra4 polls s hb =>
    have := (boot_frame ee l0 l1 l2 l3 lb ra4 polls s hb).1
    have h2 : s.count2 = 0 := by
      have := congrArg (fun x => x.2.2.2.1) this
      simpa [ctl] using this
    rw [h2]; norm_num
  | pass inp s _ ih => exact mainIter_count2 inp s ih

/-- In `MODE_DMX_LOST` with the relays off, passes in which nothing is
received leave the mode and the relays as they are. -/
theorem run_silent_lost : ∀ (inps : List LoopInput) (s : State),
    s.mode = MODE_DMX_LOST → relays s = [false, false, false, false] →
    (∀ i ∈ inps, i.rx = none ∧ i.drain = []) →
    (run inps s).mode = MODE_DMX_LOST ∧ relays (run inps s) = [false, false, false, false] := by
  intro inps
  induction inps with
  | nil => intro s hm hr _; exact ⟨hm, hr⟩
  | cons i is ih =>
    intro s hm hr hs
    rw [run_cons]
    have hi := hs i (List.mem_cons_self _ _)
    have e : mainIter i s = { lostArm s with TMR1IF := true } := by
      simp [mainIter, hm, lostIter, hi.2, lostDrain]
    obtain ⟨a1, a2, _⟩ := lostArm_fields s
    refine ih _ ?_ ?_ (fun j hj => hs j (List.mem_cons_of_mem _ hj))
    · rw [e]; exact a1.trans hm
    · rw [e]; exact a2.trans hr

/-- In `MODE_DMX_OK`, passes in which nothing is received and among which
the timer rolls over often enough to bring the loss counter to 500 end in
`MODE_DMX_LOST` with the relays off. -/
theorem run_silent_ok : ∀ (inps : List LoopInput) (s : State),
    s.mode = MODE_DMX_OK → s.count2 < 500 →
    (∀ i ∈ inps, i.rx = none ∧ i.drain = []) →
    500 - s.count2 ≤ inps.countP (fun i => i.tick) →
    (run inps s).mode = MODE_DMX_LOST ∧ relays (run inps s) = [false, false, false, false] := by
  intro inps
  induction inps with
  | nil =>
    intro s _ hc _ hn
    simp only [List.countP_nil] at hn
    omega
  | cons i is ih =>
    intro s hm hc hs hn
    rw [run_cons]
    have hi := hs i (List.mem_cons_self _ _)
    have hrest : ∀ j ∈ is, j.rx = none ∧ j.drain = [] :=
      fun j hj => hs j (List.mem_cons_of_mem _ hj)
    have hne : s.mode ≠ MODE_DMX_LOST := by rw [hm]; decide
    have e : mainIter i s = if s.TMR1IF || i.tick then okTick s else s := by
      unfold mainIter
      rw [if_neg hne, if_pos hm]
      unfold okIter
      rw [hi.1]
    rw [List.countP_cons] at hn
    by_cases ht : (s.TMR1IF || i.tick) = true
    · rw [e, if_pos ht]
      have hle : (if i.tick = true then 1 else 0) ≤ 1 := by split_ifs <;> omega
      by_cases hto : (s.count2 + 1) % 65536 = 500
      · obtain ⟨t1, t2, _⟩ := okTick_timeout s hto
        exact run_silent_lost is _ t1 t2 hrest
      · obtain ⟨t1, _, t3, _⟩ := okTick_no_timeout s hto
        rw [Nat.mod_eq_of_lt (by omega)] at hto t3
        exact ih _ (t1.trans hm) (by rw [t3]; omega) hrest (by rw [t3]; omega)
    · rw [e, if_neg ht]
      have hti : i.tick = false := by
        cases h : i.tick
        · rfl
        · rw [h, Bool.or_true] at ht; exact absurd rfl ht
      rw [hti] at hn
      exact ih s hm hc hrest (by simpa using hn)

/-- C4: from every state reachable at the top of the main loop and in
`MODE_DMX_OK`, passes of the main loop in which no character is received and
among which timer 1 rolls over at least 500 times end in `MODE_DMX_LOST` with
all four relays off. -/
theorem C4_loss_timeout (s : State) (inps : List LoopInput)
    (hreach : Reachable s) (hmode : s.mode = MODE_DMX_OK)
    (hsilent : ∀ i ∈ inps, i.rx = none ∧ i.drain = [])
    (hticks : 500 ≤ inps.countP (fun i => i.tick)) :
    (run inps s).mode = MODE_DMX_LOST ∧ relays (run inps s) = [false, false, false, false] :=
  run_silent_ok inps s hmode (reachable_count2 s hreach) hsilent (by omega)

/-- The state after a power-on with the button released is reachable. -/
theorem bootedState_reachable : Reachable bootedState :=
  Reachable.start (fun _ => 255) false false false false false (fun _ => true) [] bootedState rfl

/-- C4 from the first pass after power-on, on 500 silent ticks. -/
theorem C4_loss_timeout_witness :
    (run (List.replicate 500 silentTick) bootedState).mode = MODE_DMX_LOST ∧
    relays (run (List.replicate 500 silentTick) bootedState) = [false, false, false, false] :=
  C4_loss_timeout bootedState (List.replicate 500 silentTick) bootedState_reachable rfl
    (fun i hi => by rw [List.eq_of_mem_replicate hi]; exact ⟨rfl, rfl⟩)
    (by rw [List.countP_replicate]; decide)

/-! ## The main loop in terms of events -/

/-- A pass of the main loop in `MODE_DMX_OK` handles the events of that pass
with the handlers of the `MODE_DMX_OK` branch. -/
theorem mainIter_ok_events (inp : LoopInput) (s : State) (h : s.mode = MODE_DMX_OK) :
    mainIter inp s = okEvents (passEvents s.TMR1IF inp) s := by
  have hne : s.mode ≠ MODE_DMX_LOST := by rw [h]; decide
  unfold mainIter
  rw [if_neg hne, if_pos h]
  unfold okIter passEvents
  cases inp.rx with
  | none =>
    cases h1 : s.TMR1IF <;> cases h2 : inp.tick <;> simp [okEvents, okEvent, h1, h2]
  | some b =>
    have hk : (okRx b s).TMR1IF = s.TMR1IF := (okRx_keeps b s).2.2.2.1
    simp only [hk]
    cases h1 : s.TMR1IF <;> cases h2 : inp.tick <;> simp [okEvents, okEvent, h1, h2]

/-- A pass of the main loop in `MODE_DMX_LOST` is a tick followed by the
characters drained, handled by the `MODE_DMX_LOST` branch; it ends with the
timer flag set. -/
theorem mainIter_lost_events (inp : LoopInput) (s : State) (h : s.mode = MODE_DMX_LOST) :
    mainIter inp s =
      { lostEvents (Event.tick :: inp.drain.map Event.rx) s with TMR1IF := true } := by
  unfold mainIter
  rw [if_pos h]
  exact lostIter_eq_lostEvents inp.drain s

/-! ## Invariants of the main loop -/

/-- Reachability is kept by further passes of the main loop. -/
theorem reachable_run : ∀ (inps : List LoopInput) (s : State), Reachable s →
    Reachable (run inps s) := by
  intro inps
  induction inps with
  | nil => intro s h; exact h
  | cons i is ih => intro s h; exact ih _ (Reachable.pass i s h)

/-- What the drain loop can do to the mode: leave it or set `MODE_DMX_OK`. -/
theorem lostDrain_mode : ∀ (bs : List RxByte) (s : State),
    (lostDrain bs s).mode = s.mode ∨ (lostDrain bs s).mode = MODE_DMX_OK := by
  intro bs
  induction bs with
  | nil => intro s; exact Or.inl rfl
  | cons b bs ih =>
    intro s
    have f3 := (lostRx_fields b s).2.2.1
    rcases ih (lostRx b s) with h | h
    · by_cases hc : b.ferr = true ∧ (s.count + 1) % 256 = 50
      · right
        exact h.trans (by rw [f3, if_pos hc])
      · left
        exact h.trans (by rw [f3, if_neg hc])
    · exact Or.inr h

/-- A pass through the `MODE_DMX_LOST` branch: relays, loss counter, address
and channel addresses are kept; the mode is kept or becomes `MODE_DMX_OK`. -/
theorem lostIter_frame (drain : List RxByte) (s : State) :
    relays (lostIter drain s) = relays s ∧ (lostIter drain s).count2 = s.count2 ∧
    ((lostIter drain s).mode = s.mode ∨ (lostIter drain s).mode = MODE_DMX_OK) := by
  obtain ⟨a1, a2, _, _, a5⟩ := lostArm_fields s
  obtain ⟨d1, d2⟩ := lostDrain_frame drain (lostArm s)
  refine ⟨d2.trans a2, d1.trans a5, ?_⟩
  rcases lostDrain_mode drain (lostArm s) with h | h
  · exact Or.inl (h.trans a1)
  · exact Or.inr h

/-- A pass through the `MODE_DMX_OK` branch is the character handler, if a
character waits, followed or not by the tick handler. -/
theorem okIter_cases (rx : Option RxByte) (tick : Bool) (s : State) :
    ∃ s1, (s1 = s ∨ ∃ b, s1 = okRx b s) ∧ (okIter rx tick s = s1 ∨ okIter rx tick s = okTick s1) := by
  unfold okIter
  cases rx with
  | none =>
    refine ⟨s, Or.inl rfl, ?_⟩
    simp only
    split_ifs
    · exact Or.inr rfl
    · exact Or.inl rfl
  | some b =>
    refine ⟨okRx b s, Or.inr ⟨b, rfl⟩, ?_⟩
    simp only
    split_ifs
    · exact Or.inr rfl
    · exact Or.inl rfl

/-- The mode after a tick in `MODE_DMX_OK`, and the relays when it changed. -/
theorem okTick_mode (s : State) :
    ((okTick s).mode = s.mode ∧ relays (okTick s) = relays s) ∨
    ((okTick s).mode = MODE_DMX_LOST ∧ relays (okTick s) = [false, false, false, false]) := by
  by_cases hc : (s.count2 + 1) % 65536 = 500
  · obtain ⟨t1, t2, _⟩ := okTick_timeout s hc
    exact Or.inr ⟨t1, t2⟩
  · obtain ⟨t1, t2, _⟩ := okTick_no_timeout s hc
    exact Or.inl ⟨t1, t2⟩

/-- A pass through the `MODE_DMX_OK` branch leaves the mode `MODE_DMX_OK`, or
goes to `MODE_DMX_LOST` with the relays off. -/
theorem okIter_mode (rx : Option RxByte) (tick : Bool) (s : State) (h : s.mode = MODE_DMX_OK) :
    (okIter rx tick s).mode = MODE_DMX_OK ∨
    ((okIter rx tick s).mode = MODE_DMX_LOST ∧
      relays (okIter rx tick s) = [false, false, false, false]) := by
  obtain ⟨s1, hs1, hit⟩ := okIter_cases rx tick s
  have hm1 : s1.mode = MODE_DMX_OK := by
    rcases hs1 with rfl | ⟨b, rfl⟩
    · exact h
    · exact ((okRx_keeps b s).2.2.1).trans h
  rcases hit with e | e
  · exact Or.inl (by rw [e]; exact hm1)
  · rw [e]
    rcases okTick_mode s1 with ⟨m, _⟩ | ⟨m, r⟩
    · exact Or.inl (m.trans hm1)
    · exact Or.inr ⟨m, r⟩

/-- The mode is one of the two enumerators, and the relays are off in
`MODE_DMX_LOST`: kept by every pass of the main loop. -/
theorem mainIter_mode_relays (inp : LoopInput) (s : State)
    (hm : s.mode = MODE_DMX_LOST ∨ s.mode = MODE_DMX_OK)
    (hr : s.mode = MODE_DMX_LOST → relays s = [false, false, false, false]) :
    ((mainIter inp s).mode = MODE_DMX_LOST ∨ (mainIter inp s).mode = MODE_DMX_OK) ∧
    ((mainIter inp s).mode = MODE_DMX_LOST →
      relays (mainIter inp s) = [false, false, false, false]) := by
  rcases hm with hl | ho
  · have e : mainIter inp s = lostIter inp.drain s := by
      unfold mainIter; rw [if_pos hl]
    obtain ⟨f1, _, f3⟩ := lostIter_frame inp.drain s
    rw [e]
    refine ⟨?_, fun _ => f1.trans (hr hl)⟩
    rcases f3 with h | h
    · exact Or.inl (h.trans hl)
    · exact Or.inr h
  · have hne : s.mode ≠ MODE_DMX_LOST := by rw [ho]; decide
    have e : mainIter inp s = okIter inp.rx inp.tick s := by
      unfold mainIter; rw [if_neg hne, if_pos ho]
    rw [e]
    rcases okIter_mode inp.rx inp.tick s ho with h | ⟨h1, h2⟩
    · refine ⟨Or.inr h, fun hl => ?_⟩
      rw [h] at hl
      exact absurd hl (by decide)
    · exact ⟨Or.inl h1, fun _ => h2⟩

/-- In every state reached at the top of the main loop the mode is one of the
two enumerators and the relays are off in `MODE_DMX_LOST`. -/
theorem reachable_mode_relays (s : State) (h : Reachable s) :
    (s.mode = MODE_DMX_LOST ∨ s.mode = MODE_DMX_OK) ∧
    (s.mode = MODE_DMX_LOST → relays s = [false, false, false, false]) := by
  induction h with
  | start ee l0 l1 l2 l3 lb ra4 polls s hb =>
    obtain ⟨c, r⟩ := boot_frame ee l0 l1 l2 l3 lb ra4 polls s hb
    have hm : s.mode = MODE_DMX_OK := by
      have := congrArg (fun x => x.1) c
      simpa [ctl] using this
    exact ⟨Or.inr hm, fun _ => r⟩
  | pass inp s _ ih => exact mainIter_mode_relays inp s ih.1 ih.2

/-- The state after 500 silent ticks is reachable. -/
theorem silencedState_reachable : Reachable silencedState :=
  reachable_run _ _ bootedState_reachable

/-- After 500 silent ticks the mode is `MODE_DMX_LOST`. -/
theorem silencedState_mode : silencedState.mode = MODE_DMX_LOST :=
  (run_silent_ok (List.replicate 500 silentTick) bootedState rfl
    (reachable_count2 _ bootedState_reachable)
    (fun i hi => by rw [List.eq_of_mem_replicate hi]; exact ⟨rfl, rfl⟩)
    (by rw [List.countP_replicate]; decide)).1

/-- C11: in every state reached from power-on by passes of the main loop the
mode is `MODE_DMX_LOST` (0) or `MODE_DMX_OK` (1); so the next pass is the
`MODE_DMX_LOST` branch or the `MODE_DMX_OK` branch, never the branch for an
illegal mode. -/
theorem C11_mode_is_legal (s : State) (h : Reachable s) :
    (s.mode = 0 ∨ s.mode = 1) ∧
    (s.mode = MODE_DMX_LOST ∨ s.mode = MODE_DMX_OK) ∧
    ∀ inp : LoopInput, mainIter inp s =
      (if s.mode = MODE_DMX_LOST then lostIter inp.drain s else okIter inp.rx inp.tick s) := by
  have hm := (reachable_mode_relays s h).1
  refine ⟨hm, hm, fun inp => ?_⟩
  unfold mainIter
  rcases hm with hl | ho
  · rw [if_pos hl, if_pos hl]
  · have hne : s.mode ≠ MODE_DMX_LOST := by rw [ho]; decide
    rw [if_neg hne, if_neg hne, if_pos ho]

/-- C11 at the state reached after 500 silent ticks. -/
theorem C11_mode_is_legal_witness : silencedState.mode = 0 ∨ silencedState.mode = 1 :=
  (C11_mode_is_legal silencedState silencedState_reachable).1

/-- C20: in every state reached at the top of the main loop in which the mode
is `MODE_DMX_LOST` the four relays are off; a pass of the main loop made in
`MODE_DMX_LOST` leaves the relays as they are, whatever is received, and a
pass made in `MODE_DMX_OK` that ends in `MODE_DMX_LOST` ends with the relays
off. -/
theorem C20_lost_relays_off (s : State) (h : Reachable s) :
    (s.mode = MODE_DMX_LOST → relays s = [false, false, false, false]) ∧
    (s.mode = MODE_DMX_LOST → ∀ inp : LoopInput, relays (mainIter inp s) = relays s) ∧
    (s.mode = MODE_DMX_OK → ∀ inp : LoopInput, (mainIter inp s).mode = MODE_DMX_LOST →
      relays (mainIter inp s) = [false, false, false, false]) := by
  obtain ⟨hm, hr⟩ := reachable_mode_relays s h
  refine ⟨hr, ?_, ?_⟩
  · intro hl inp
    have e : mainIter inp s = lostIter inp.drain s := by
      unfold mainIter; rw [if_pos hl]
    rw [e]
    exact (lostIter_frame inp.drain s).1
  · intro _ inp hl
    exact (mainIter_mode_relays inp s hm hr).2 hl

/-- C20 at the state reached after 500 silent ticks, which is in
`MODE_DMX_LOST`. -/
theorem C20_lost_relays_off_witness :
    silencedState.mode = MODE_DMX_LOST ∧ relays silencedState = [false, false, false, false] :=
  ⟨silencedState_mode,
   (C20_lost_relays_off silencedState silencedState_reachable).1 silencedState_mode⟩

/-! ## The upper clamp value -/

/-- The address and the channel addresses are not touched by the handlers of
the main loop. -/
theorem handlers_cfg (b : RxByte) (s : State) :
    cfg (lostArm s) = cfg s ∧ cfg (lostRx b s) = cfg s ∧ cfg (okRx b s) = cfg s ∧
    cfg (okTick s) = cfg s := by
  refine ⟨?_, ?_, ?_, ?_⟩
  · simp only [lostArm, cfg, channels]
    split_ifs <;> rfl
  · simp only [lostRx, cfg, channels]
    split_ifs <;> rfl
  · unfold okRx
    simp only [cfg, channels]
    split_ifs <;> rfl
  · by_cases hc : (s.count2 + 1) % 65536 = 500 <;>
      simp only [okTick, hc, if_true, if_false, cfg, channels] <;>
      split_ifs <;> rfl

/-- A pass of the main loop keeps the address and the channel addresses. -/
theorem mainIter_cfg (inp : LoopInput) (s : State) : cfg (mainIter inp s) = cfg s := by
  have hd : ∀ (bs : List RxByte) (u : State), cfg (lostDrain bs u) = cfg u := by
    intro bs
    induction bs with
    | nil => intro u; rfl
    | cons b bs ih => intro u; exact (ih (lostRx b u)).trans (handlers_cfg b u).2.1
  unfold mainIter
  split_ifs with h1 h2
  · show cfg (lostDrain inp.drain (lostArm s)) = cfg s
    exact (hd _ _).trans (handlers_cfg ⟨false, 0⟩ s).1
  · obtain ⟨s1, hs1, hit⟩ := okIter_cases inp.rx inp.tick s
    have c1 : cfg s1 = cfg s := by
      rcases hs1 with rfl | ⟨b, rfl⟩
      · rfl
      · exact (handlers_cfg b s).2.2.1
    rcases hit with e | e
    · rw [e]; exact c1
    · rw [e]; exact ((handlers_cfg ⟨false, 0⟩ s1).2.2.2).trans c1
  · rfl

/-- What `boot` returns comes out of `loadAddress`. -/
theorem boot_loaded (ee : Nat → Nat) (lata0 lata1 lata2 lata3 latb0 : Bool)
    (ra4 : Nat → Bool) (polls : List Poll) (s : State)
    (h : boot ee lata0 lata1 lata2 lata3 latb0 ra4 polls = some s) :
    ∃ s1, s = loadAddress s1 := by
  unfold boot at h
  cases hb : buttonCheck ra4 (mainVars (Init (resetState ee lata0 lata1 lata2 lata3 latb0))) with
  | none => rw [hb] at h; exact Option.noConfusion h
  | some r =>
    obtain ⟨s1, held⟩ := r
    rw [hb] at h
    cases held with
    | false =>
      simp only [Option.some.injEq] at h
      exact ⟨s1, h.symm⟩
    | true =>
      simp only [Option.map_eq_some'] at h
      obtain ⟨s2, _, g2⟩ := h
      exact ⟨s2, g2.symm⟩

/-- In every state reached at the top of the main loop the address is in
`[1,510]` and the channel addresses are the four consecutive values from
it. -/
theorem reachable_cfg (s : State) (h : Reachable s) :
    (1 ≤ s.dmx_address ∧ s.dmx_address ≤ 510) ∧
    channels s = [s.dmx_address, s.dmx_address + 1, s.dmx_address + 2, s.dmx_address + 3] := by
  induction h with
  | start ee l0 l1 l2 l3 lb ra4 polls s hb =>
    obtain ⟨s1, rfl⟩ := boot_loaded ee l0 l1 l2 l3 lb ra4 polls s hb
    exact ⟨loadAddress_range s1, loadAddress_channels s1⟩
  | pass inp s _ ih =>
    have hc := mainIter_cfg inp s
    have h1 : (mainIter inp s).dmx_address = s.dmx_address := congrArg Prod.fst hc
    have h2 : channels (mainIter inp s) = channels s := congrArg Prod.snd hc
    rw [h1, h2]
    exact ih

/-- With the fourth channel address beyond 512 a character never reaches the
branch that writes the relays: relays and `new_level_ch4` are kept, and only
a break changes the seeking flag. -/
theorem okRx_far (b : RxByte) (s : State) (h : s.rx_ch4_addr > 512) :
    relays (okRx b s) = relays s ∧ (okRx b s).new_level_ch4 = s.new_level_ch4 ∧
    (b.ferr = false → (okRx b s).rx_state = s.rx_state) := by
  unfold okRx
  cases hb : b.ferr
  · simp only [Bool.false_eq_true, if_false, relays]
    by_cases h1 : s.rx_state = 1
    · by_cases h2 : s.rx_addr ≤ 512
      · have a4 : ¬ s.rx_addr = s.rx_ch4_addr := by omega
        simp only [h1, h2, if_true, eq_false a4, if_false]
        split_ifs <;> simp [h1]
      · simp [h1, h2]
    · simp [h1]
  · simp [relays]

/-- With the address 510 the relays are off in every state reached at the top
of the main loop. -/
theorem reachable_510_off (s : State) (h : Reachable s) :
    s.dmx_address = 510 → relays s = [false, false, false, false] := by
  induction h with
  | start ee l0 l1 l2 l3 lb ra4 polls s hb =>
    intro _
    exact (boot_frame ee l0 l1 l2 l3 lb ra4 polls s hb).2
  | pass inp s hs ih =>
    intro hd
    have hc := mainIter_cfg inp s
    have h1 : (mainIter inp s).dmx_address = s.dmx_address := congrArg Prod.fst hc
    rw [h1] at hd
    have hoff := ih hd
    have hch := (reachable_cfg s hs).2
    rw [hd] at hch
    have h4 : s.rx_ch4_addr = 513 := (channels_eq s _ _ _ _ hch).2.2.2
    unfold mainIter
    split_ifs with m1 m2
    · exact ((lostIter_frame inp.drain s).1).trans hoff
    · obtain ⟨s1, hs1, hit⟩ := okIter_cases inp.rx inp.tick s
      have r1 : relays s1 = [false, false, false, false] := by
        rcases hs1 with rfl | ⟨b, rfl⟩
        · exact hoff
        · exact ((okRx_far b s (by omega)).1).trans hoff
      rcases hit with e | e
      · rw [e]; exact r1
      · rw [e]
        rcases okTick_mode s1 with ⟨_, r⟩ | ⟨_, r⟩
        · exact r.trans r1
        · exact r
    · exact hoff

/-- C18: when the loaded base address is 510 the fourth channel address is
513, beyond the position bound 512; then in every state reached at the top of
the main loop all four relays are off, and no character, whatever its value,
takes the branch that writes the relays: it leaves the relays and
`new_level_ch4` as they are, and an error-free one leaves the seeking flag as
it is. -/
theorem C18_base_510_never_writes (s : State) (h : Reachable s) (hb : s.dmx_address = 510) :
    s.rx_ch4_addr = 513 ∧
    relays s = [false, false, false, false] ∧
    ∀ b : RxByte, relays (okRx b s) = relays s ∧
      (okRx b s).new_level_ch4 = s.new_level_ch4 ∧
      (b.ferr = false → (okRx b s).rx_state = s.rx_state) := by
  have hch := (reachable_cfg s h).2
  rw [hb] at hch
  have h4 : s.rx_ch4_addr = 513 := (channels_eq s _ _ _ _ hch).2.2.2
  exact ⟨h4, reachable_510_off s h hb, fun b => okRx_far b s (by omega)⟩

set_option maxRecDepth 4000

/-- C18 at a state reached with the address 510 after a break and twenty
channel values of 255: the relays are off. -/
theorem C18_base_510_never_writes_witness :
    busyState510.rx_ch4_addr = 513 ∧ relays busyState510 = [false, false, false, false] :=
  ⟨(C18_base_510_never_writes busyState510 (reachable_run _ _ bootedState_reachable) rfl).1,
   (C18_base_510_never_writes busyState510 (reachable_run _ _ bootedState_reachable) rfl).2.1⟩

/-! ## Addresses beyond the clamp -/

/-- The characters read from a stream in which every pass reads one. -/
theorem received_map (bs : List RxByte) (t : Bool) :
    received (bs.map (fun b => (⟨some b, t⟩ : Poll))) = bs := by
  induction bs with
  | nil => rfl
  | cons b bs ih => simpa [received] using ih

/-- The specification's search through `n` zeros followed by a `0xff`. -/
theorem sentinelSearch_zeros : ∀ (n p : Nat), 1 ≤ p + n → p + n ≤ 512 →
    sentinelSearch (some p) (List.replicate n (chr 0) ++ [chr 255]) = some (n, p + n) := by
  intro n
  induction n with
  | zero =>
    intro p h1 h2
    simp only [Nat.add_zero] at h1 h2
    simp [sentinelSearch, chr, h1, h2]
  | succ n ih =>
    intro p h1 h2
    have := ih (p + 1) (by omega) (by omega)
    rw [List.replicate_succ, List.cons_append]
    simp only [sentinelSearch, chr] at this ⊢
    simp only [Bool.false_eq_true, if_false, Nat.zero_mod]
    rw [if_neg (by simp), this]
    simp only [Option.map_some', Option.some.injEq, Prod.mk.injEq, true_and]
    omega

/-- The specification's search on `streamTo511`. -/
theorem streamTo511_sentinel :
    sentinelSearch none (received streamTo511) = some (512, 511) := by
  have h : received streamTo511 = brk :: (List.replicate 511 (chr 0) ++ [chr 255]) := by
    show brk :: received ((List.replicate 511 (chr 0) ++ [chr 255]).map
      (fun b => (⟨some b, false⟩ : Poll))) = _
    rw [received_map]
  rw [h]
  have key : ∀ (tl : List RxByte) (r : Nat × Nat), sentinelSearch (some 0) tl = some r →
      sentinelSearch none (brk :: tl) = some (r.1 + 1, r.2) := by
    intro tl r hr
    simp [sentinelSearch, brk, hr]
  exact key _ _ (sentinelSearch_zeros 511 0 (by norm_num) (by norm_num))

/-- C19: on every input stream in which the addressing procedure finds the
sentinel at position 511 or 512, the procedure returns having stored that
position (high byte `(A >> 8) & 0xff`, low byte `A & 0xff`, together the
value `A`), and the load at startup clamps it to 510: the base address the
decoder uses is not the address that was found and stored. -/
theorem C19_high_addresses_clamped (polls : List Poll) (s : State) (i A : Nat)
    (hA : A = 511 ∨ A = 512)
    (hfind : sentinelSearch none (received polls) = some (i, A)) :
    ∃ s2, GetNewDmxAddress polls s = some s2 ∧
      s2.eeprom EE_DMX_ADDR_HI = (A >>> 8) &&& 0xff ∧
      s2.eeprom EE_DMX_ADDR_LO = A &&& 0xff ∧
      s2.eeprom EE_DMX_ADDR_HI * 256 + s2.eeprom EE_DMX_ADDR_LO = A ∧
      (loadAddress s2).dmx_address = 510 ∧
      (loadAddress s2).dmx_address ≠ s2.eeprom EE_DMX_ADDR_HI * 256 + s2.eeprom EE_DMX_ADDR_LO := by
  obtain ⟨_, _, _, rest, s1, _, _, e3, e4, _⟩ :=
    (scanLoop_agrees polls none (scanEntry s) (scanEntry_tracks s)).2 i A hfind
  obtain ⟨s2, hret, hee, _, _⟩ := confirmWindow_returns (storeAddress s1)
  obtain ⟨w0, w1⟩ := storeAddress_eeprom s1
  rw [e4] at w0 w1
  have h0 : s2.eeprom 0 = A / 256 % 256 := by rw [hee, w0]
  have h1 : s2.eeprom 1 = A % 256 := by rw [hee, w1]
  have hsum : s2.eeprom EE_DMX_ADDR_HI * 256 + s2.eeprom EE_DMX_ADDR_LO = A := by
    show s2.eeprom 0 * 256 + s2.eeprom 1 = A
    rw [h0, h1]; omega
  have hd : (loadAddress s2).dmx_address = 510 := by
    rw [loadAddress_dmx_address, h0, h1]
    simp only
    split_ifs <;> omega
  refine ⟨s2, ?_, ?_, ?_, hsum, hd, ?_⟩
  · simp only [GetNewDmxAddress, e3]
    exact hret
  · rw [hi_byte]; exact h0
  · have := lo_byte A
    rw [Nat.shiftRight_zero] at this
    rw [this]; exact h1
  · rw [hd, hsum]; omega

/-- C19 on a stream with the sentinel at position 511: 511 is stored (`0x01`,
`0xff`) and the decoder uses 510. -/
theorem C19_high_addresses_clamped_witness :
    ∃ s2, GetNewDmxAddress streamTo511 freshState = some s2 ∧
      s2.eeprom EE_DMX_ADDR_HI = (511 >>> 8) &&& 0xff ∧
      s2.eeprom EE_DMX_ADDR_LO = 511 &&& 0xff ∧
      s2.eeprom EE_DMX_ADDR_HI * 256 + s2.eeprom EE_DMX_ADDR_LO = 511 ∧
      (loadAddress s2).dmx_address = 510 ∧
      (loadAddress s2).dmx_address ≠ s2.eeprom EE_DMX_ADDR_HI * 256 + s2.eeprom EE_DMX_ADDR_LO :=
  C19_high_addresses_clamped streamTo511 freshState 512 511 (Or.inl rfl) streamTo511_sentinel

/-! ## Characters the decoder ignores -/

/-- Once the decoder has stopped seeking, a run of error-free characters
leaves relays, pending levels, position, seeking flag and mode as they are. -/
theorem okEvents_ignored : ∀ (bs : List Nat) (s : State), s.rx_state ≠ 1 →
    relays (okEvents (bs.map (fun v => Event.rx ⟨false, v⟩)) s) = relays s ∧
    levels (okEvents (bs.map (fun v => Event.rx ⟨false, v⟩)) s) = levels s ∧
    (okEvents (bs.map (fun v => Event.rx ⟨false, v⟩)) s).rx_addr = s.rx_addr ∧
    (okEvents (bs.map (fun v => Event.rx ⟨false, v⟩)) s).rx_state = s.rx_state ∧
    (okEvents (bs.map (fun v => Event.rx ⟨false, v⟩)) s).mode = s.mode := by
  intro bs
  induction bs with
  | nil => intro s _; exact ⟨rfl, rfl, rfl, rfl, rfl⟩
  | cons b bs ih =>
    intro s h
    rw [List.map_cons, okEvents_cons]
    have e : okEvent (Event.rx ⟨false, b⟩) s = { s with rx_level := b % 256, count2 := 0 } :=
      okRx_not_seeking ⟨false, b⟩ s rfl h
    rw [e]
    exact ih _ h

/-- While seeking, an error-free character at a position that is none of the
four channel addresses leaves the relays and the pending levels as they
are. -/
theorem okRx_no_match (v : Nat) (s : State)
    (a1 : s.rx_addr ≠ s.rx_ch1_addr) (a2 : s.rx_addr ≠ s.rx_ch2_addr)
    (a3 : s.rx_addr ≠ s.rx_ch3_addr) (a4 : s.rx_addr ≠ s.rx_ch4_addr) :
    relays (okRx ⟨false, v⟩ s) = relays s ∧ levels (okRx ⟨false, v⟩ s) = levels s := by
  unfold okRx
  simp only [Bool.false_eq_true, if_false, relays, levels, eq_false a1, eq_false a2,
    eq_false a3, eq_false a4]
  split_ifs <;> simp

/-- C12: in `MODE_DMX_OK`, once seeking has stopped, every run of error-free
bytes received before the next break leaves the four relays, the four pending
levels, the position counter, the seeking flag and the mode unchanged; and
while seeking, an error-free byte whose position is none of the four channel
addresses leaves the relays and the four pending levels unchanged. -/
theorem C12_ignored_bytes (s : State) (bs : List Nat) (v : Nat) :
    (s.rx_state ≠ 1 →
      relays (okEvents (bs.map (fun v => Event.rx ⟨false, v⟩)) s) = relays s ∧
      levels (okEvents (bs.map (fun v => Event.rx ⟨false, v⟩)) s) = levels s ∧
      (okEvents (bs.map (fun v => Event.rx ⟨false, v⟩)) s).rx_addr = s.rx_addr ∧
      (okEvents (bs.map (fun v => Event.rx ⟨false, v⟩)) s).rx_state = s.rx_state ∧
      (okEvents (bs.map (fun v => Event.rx ⟨false, v⟩)) s).mode = s.mode) ∧
    (s.rx_state = 1 → s.rx_addr ∉ channels s →
      relays (okRx ⟨false, v⟩ s) = relays s ∧ levels (okRx ⟨false, v⟩ s) = levels s) := by
  refine ⟨okEvents_ignored bs s, ?_⟩
  intro _ hn
  simp only [channels, List.mem_cons, List.mem_singleton, List.not_mem_nil, or_false,
    not_or] at hn
  exact okRx_no_match v s hn.1 hn.2.1 hn.2.2.1 hn.2.2.2

/-- C12 after a decoded frame for base address 10: two more bytes of 255
leave the relays and pending levels as decoded; and at the start code of a
new frame nothing is stored. -/
theorem C12_ignored_bytes_witness :
    (relays (okEvents ([255, 255].map (fun v => Event.rx ⟨false, v⟩)) decodedState)
        = [true, false, true, false] ∧
      levels (okEvents ([255, 255].map (fun v => Event.rx ⟨false, v⟩)) decodedState)
        = [255, 0, 128, 127]) ∧
    relays (okRx ⟨false, 255⟩ (okRx brk decodedState)) = [true, false, true, false] := by
  have h1 := (C12_ignored_bytes decodedState [255, 255] 0).1 (by decide)
  have h2 := (C12_ignored_bytes (okRx brk decodedState) [] 255).2 (by decide) (by decide)
  exact ⟨⟨h1.1.trans (by decide), h1.2.1.trans (by decide)⟩, h2.1.trans (by decide)⟩

/-! ## The confirmation window -/

/-- The loop of the confirmation window entered with `n + 1` passes to go
makes exactly `n + 1` passes. -/
theorem confirmLoop_passes (n : Nat) : ∀ (fuel : Nat) (s : State),
    s.startup_timer = n + 1 → n + 1 < 256 → n < fuel →
    confirmLoop fuel s = some (confirmAfter (n + 1) s) := by
  induction n with
  | zero =>
    intro fuel s hs _ hf
    obtain ⟨f, rfl⟩ : ∃ f, fuel = f + 1 := ⟨fuel - 1, by omega⟩
    have hz : ((confirmPass s).startup_timer + 255) % 256 = 0 := by
      rw [(confirmPass_keeps s).1, hs]
    rw [confirmLoop]
    exact if_neg (by simp [hz])
  | succ n ih =>
    intro fuel s hs hlt hf
    obtain ⟨f, rfl⟩ : ∃ f, fuel = f + 1 := ⟨fuel - 1, by omega⟩
    have hz : ((confirmPass s).startup_timer + 255) % 256 = n + 1 := by
      rw [(confirmPass_keeps s).1, hs]; omega
    have hne : ((confirmPass s).startup_timer + 255) % 256 ≠ 0 := by rw [hz]; omega
    have h1 := ih f (confirmStep s) hz (by omega) (by omega)
    have e : confirmAfter (n + 1 + 1) s = confirmAfter (n + 1) (confirmStep s) := rfl
    rw [e, ← h1, confirmLoop]
    exact if_pos hne

/-- The confirmation window is 50 passes of its loop. -/
theorem confirmWindow_eq (s : State) :
    confirmWindow s = some (confirmAfter 50 (confirmStart s)) :=
  confirmLoop_passes 49 256 (confirmStart s) rfl (by norm_num) (by norm_num)

/-- The LED and its phase counter after one pass of the confirmation loop. -/
theorem confirmStep_led (s : State) (h : s.green_led_timer < 15) :
    (confirmStep s).green_led_timer = (s.green_led_timer + 1) % 15 ∧
    (confirmStep s).LATB0 =
      (if s.green_led_timer + 1 = 3 then false
       else if s.green_led_timer + 1 = 15 then true else s.LATB0) := by
  have e : (s.green_led_timer + 1) % 256 = s.green_led_timer + 1 := Nat.mod_eq_of_lt (by omega)
  simp only [confirmStep, confirmPass, e]
  split_ifs <;> refine ⟨?_, ?_⟩ <;> (try dsimp only) <;> first | rfl | omega

/-- The LED during the `k`-th tick interval of a confirmation window entered
with the LED on: off exactly in the three intervals from each multiple of
15. -/
theorem confirmAfter_led (s : State) (h0 : s.green_led_timer = 0) (hon : s.LATB0 = false) :
    ∀ k : Nat, (confirmAfter k s).green_led_timer = k % 15 ∧
      (confirmAfter k s).LATB0 = decide (15 ≤ k ∧ k % 15 < 3) := by
  intro k
  induction k with
  | zero => exact ⟨h0, by simp [confirmAfter, hon]⟩
  | succ k ih =>
    have e : confirmAfter (k + 1) s = confirmStep (confirmAfter k s) := by
      simp only [confirmAfter, Function.iterate_succ_apply']
    obtain ⟨i1, i2⟩ := ih
    have hlt : (confirmAfter k s).green_led_timer < 15 := by rw [i1]; exact Nat.mod_lt _ (by norm_num)
    obtain ⟨c1, c2⟩ := confirmStep_led (confirmAfter k s) hlt
    rw [e, c1, c2, i1, i2]
    refine ⟨by omega, ?_⟩
    by_cases q3 : k % 15 + 1 = 3
    · rw [if_pos q3]
      symm
      rw [decide_eq_false_iff_not]
      omega
    · rw [if_neg q3]
      by_cases q15 : k % 15 + 1 = 15
      · rw [if_pos q15]
        symm
        rw [decide_eq_true_iff]
        omega
      · rw [if_neg q15]
        have : (15 ≤ k ∧ k % 15 < 3) ↔ (15 ≤ k + 1 ∧ (k + 1) % 15 < 3) := by omega
        simp only [this]

/-- C13 as stated fails: in the 15th tick interval of the confirmation window
the LED is off (`LATB0 = 1`, lines 419-421). -/
theorem C13_counterexample :
    (confirmAfter 14 (confirmStart (storeAddress freshState))).LATB0 = false ∧
    (confirmAfter 15 (confirmStart (storeAddress freshState))).LATB0 = true ∧
    (confirmAfter 17 (confirmStart (storeAddress freshState))).LATB0 = true := by
  decide

/-- C13 amended: after the addressing procedure has found the sentinel and
written the address, the confirmation window is 50 tick intervals; the LED is
on when it starts and during intervals 1-14, 18-29, 33-44 and 48-50, and off
during intervals 15-17, 30-32 and 45-47 (in interval `k` it is off exactly
when `k ≥ 15` and `k mod 15 < 3`); the procedure returns with the LED on. -/
theorem C13_confirmation_blink (s : State) (k : Nat) (hk : k ≤ 50) :
    (storeAddress s).LATB0 = false ∧
    (confirmAfter k (confirmStart (storeAddress s))).LATB0 = decide (15 ≤ k ∧ k % 15 < 3) ∧
    confirmWindow (storeAddress s) = some (confirmAfter 50 (confirmStart (storeAddress s))) ∧
    (confirmAfter 50 (confirmStart (storeAddress s))).LATB0 = false := by
  have _ := hk
  have hl := confirmAfter_led (confirmStart (storeAddress s)) rfl rfl
  exact ⟨rfl, (hl k).2, confirmWindow_eq _, by rw [(hl 50).2]; decide⟩

/-- C13 amended, at the 16th tick interval: the LED is off. -/
theorem C13_confirmation_blink_witness :
    (confirmAfter 16 (confirmStart (storeAddress freshState))).LATB0 = true :=
  (C13_confirmation_blink freshState 16 (by decide)).2.1.trans (by decide)

/-! ## The loss counter -/

/-- The first `k + 1` of the events `e :: es` are `e` and the first `k` of
`es`. -/
theorem stay_tail (e : Event) (es : List Event) (s : State)
    (h : ∀ k, k ≤ (e :: es).length → (okEvents ((e :: es).take k) s).mode = MODE_DMX_OK) :
    (okEvent e s).mode = MODE_DMX_OK ∧
    ∀ k, k ≤ es.length → (okEvents (es.take k) (okEvent e s)).mode = MODE_DMX_OK := by
  refine ⟨?_, ?_⟩
  · have := h 1 (by simp)
    simpa [okEvents] using this
  · intro k hk
    have := h (k + 1) (by simp; omega)
    simpa [okEvents_cons] using this

/-- While the mode stays `MODE_DMX_OK` the loss counter is the number of ticks
since the later of the start and the most recent error-free character, and
it is below 500. -/
theorem okEvents_lossCount : ∀ (evs : List Event) (s : State), s.count2 < 500 →
    (∀ k, k ≤ evs.length → (okEvents (evs.take k) s).mode = MODE_DMX_OK) →
    (okEvents evs s).count2 = lossCount s.count2 evs ∧ lossCount s.count2 evs < 500 := by
  intro evs
  induction evs with
  | nil => intro s h _; exact ⟨rfl, h⟩
  | cons e es ih =>
    intro s hc hstay
    have hm0 : s.mode = MODE_DMX_OK := by simpa [okEvents] using hstay 0 (by simp)
    obtain ⟨hm1, htail⟩ := stay_tail e es s hstay
    rw [okEvents_cons]
    cases e with
    | tick =>
      have hne : (s.count2 + 1) % 65536 ≠ 500 := by
        intro hto
        have := (okTick_timeout s hto).1
        have hm1' : (okTick s).mode = MODE_DMX_OK := hm1
        rw [this] at hm1'
        exact absurd hm1' (by decide)
      have hc2 : (okTick s).count2 = s.count2 + 1 := by
        rw [(okTick_no_timeout s hne).2.2.1]
        exact Nat.mod_eq_of_lt (by omega)
      rw [Nat.mod_eq_of_lt (by omega)] at hne
      have := ih (okTick s) (by rw [hc2]; omega) htail
      rw [hc2] at this
      exact this
    | rx b =>
      have hc2 : (okRx b s).count2 = (if b.ferr = true then s.count2 else 0) := okRx_count2 b s
      have := ih (okRx b s) (by rw [hc2]; split_ifs <;> omega) htail
      rw [hc2] at this
      cases hb : b.ferr
      · simpa [lossCount, hb] using this
      · simpa [lossCount, hb] using this

/-- A pass through the `MODE_DMX_OK` branch that ends in `MODE_DMX_LOST` ends
with the loss counter at 0. -/
theorem okIter_lost_count2 (rx : Option RxByte) (tick : Bool) (s : State)
    (h : s.mode = MODE_DMX_OK) (hl : (okIter rx tick s).mode = MODE_DMX_LOST) :
    (okIter rx tick s).count2 = 0 := by
  obtain ⟨s1, hs1, hit⟩ := okIter_cases rx tick s
  have hm1 : s1.mode = MODE_DMX_OK := by
    rcases hs1 with rfl | ⟨b, rfl⟩
    · exact h
    · exact ((okRx_keeps b s).2.2.1).trans h
  rcases hit with e | e
  · rw [e, hm1] at hl
    exact absurd hl (by decide)
  · rw [e] at hl ⊢
    by_cases hto : (s1.count2 + 1) % 65536 = 500
    · exact (okTick_timeout s1 hto).2.2.1
    · rw [(okTick_no_timeout s1 hto).1, hm1] at hl
      exact absurd hl (by decide)

/-- In every state reached at the top of the main loop in `MODE_DMX_LOST` the
loss counter is 0. -/
theorem reachable_lost_count2 (s : State) (h : Reachable s) :
    s.mode = MODE_DMX_LOST → s.count2 = 0 := by
  induction h with
  | start ee l0 l1 l2 l3 lb ra4 polls s hb =>
    intro _
    have := congrArg (fun x => x.2.2.2.1) (boot_frame ee l0 l1 l2 l3 lb ra4 polls s hb).1
    simpa [ctl] using this
  | pass inp s hs ih =>
    intro hl
    rcases (reachable_mode_relays s hs).1 with m | m
    · have e : mainIter inp s = lostIter inp.drain s := by
        unfold mainIter; rw [if_pos m]
      rw [e, (lostIter_frame inp.drain s).2.1]
      exact ih m
    · have hne : s.mode ≠ MODE_DMX_LOST := by rw [m]; decide
      have e : mainIter inp s = okIter inp.rx inp.tick s := by
        unfold mainIter; rw [if_neg hne, if_pos m]
      rw [e] at hl ⊢
      exact okIter_lost_count2 inp.rx inp.tick s m hl

/-- C15: every error-free byte sets the loss counter to 0 whatever the seeking
flag and the position are, a break leaves it as it is, and no byte changes the
mode.  The loss counter is 0 at power-on and in every reachable state in
`MODE_DMX_LOST`, and a pass made in `MODE_DMX_LOST` keeps it, so it is 0 at
every entry into `MODE_DMX_OK`.  From such an entry, while the mode stays
`MODE_DMX_OK`, the counter equals the number of ticks handled since the later
of the entry and the most recent error-free byte and is below 500; the next
tick switches to `MODE_DMX_LOST` if and only if it is the 500th of them. -/
theorem C15_loss_hysteresis (s : State) (evs : List Event)
    (hentry : s.count2 = 0)
    (hstay : ∀ k, k ≤ evs.length → (okEvents (evs.take k) s).mode = MODE_DMX_OK) :
    ((okEvents evs s).count2 = lossCount 0 evs ∧ lossCount 0 evs < 500) ∧
    ((okTick (okEvents evs s)).mode = MODE_DMX_LOST ↔ lossCount 0 evs + 1 = 500) ∧
    (∀ (b : RxByte) (u : State),
      (okRx b u).count2 = (if b.ferr = true then u.count2 else 0) ∧ (okRx b u).mode = u.mode) ∧
    (∀ (u : State), Reachable u → u.mode = MODE_DMX_LOST →
      u.count2 = 0 ∧ ∀ inp : LoopInput, (mainIter inp u).count2 = 0) ∧
    (∀ (ee : Nat → Nat) (l0 l1 l2 l3 lb : Bool) (ra4 : Nat → Bool) (polls : List Poll)
      (u : State), boot ee l0 l1 l2 l3 lb ra4 polls = some u →
      u.mode = MODE_DMX_OK ∧ u.count2 = 0) := by
  have hl := okEvents_lossCount evs s (by rw [hentry]; norm_num) hstay
  rw [hentry] at hl
  have hm : (okEvents evs s).mode = MODE_DMX_OK := by
    have := hstay evs.length (le_refl _)
    rwa [List.take_length] at this
  refine ⟨hl, ?_, fun b u => ⟨okRx_count2 b u, (okRx_keeps b u).2.2.1⟩, ?_, ?_⟩
  · constructor
    · intro h
      by_cases hto : ((okEvents evs s).count2 + 1) % 65536 = 500
      · rw [hl.1, Nat.mod_eq_of_lt (by omega)] at hto
        exact hto
      · rw [(okTick_no_timeout _ hto).1, hm] at h
        exact absurd h (by decide)
    · intro h
      have hto : ((okEvents evs s).count2 + 1) % 65536 = 500 := by
        rw [hl.1, h]
      exact (okTick_timeout _ hto).1
  · intro u hu hlost
    have h0 := reachable_lost_count2 u hu hlost
    refine ⟨h0, fun inp => ?_⟩
    have e : mainIter inp u = lostIter inp.drain u := by
      unfold mainIter; rw [if_pos hlost]
    rw [e, (lostIter_frame inp.drain u).2.1]
    exact h0
  · intro ee l0 l1 l2 l3 lb ra4 polls u hb
    have hc := (boot_frame ee l0 l1 l2 l3 lb ra4 polls u hb).1
    have h1 := congrArg (fun x => x.1) hc
    have h2 := congrArg (fun x => x.2.2.2.1) hc
    exact ⟨by simpa [ctl] using h1, by simpa [ctl] using h2⟩

/-- C15 from power-on: after two ticks, an error-free byte, two more ticks and
a break the loss counter reads 2. -/
theorem C15_loss_hysteresis_witness :
    (okEvents tickByteTicks bootedState).count2 = 2 :=
  (C15_loss_hysteresis bootedState tickByteTicks rfl (by decide)).1.1.trans (by decide)

/-! ## The idle timer of `MODE_DMX_LOST` -/

/-- Silent ticks in `MODE_DMX_OK` touch neither the idle timer nor the break
counter. -/
theorem run_silent_counts : ∀ (n : Nat) (s : State),
    (s.mode = MODE_DMX_OK ∧ s.count2 + n ≤ 500) →
    (run (List.replicate n silentTick) s).timer = s.timer ∧
    (run (List.replicate n silentTick) s).count = s.count := by
  intro n
  induction n with
  | zero => intro s _; exact ⟨rfl, rfl⟩
  | succ n ih =>
    intro s h
    obtain ⟨hm, hc⟩ := h
    have hne : s.mode ≠ MODE_DMX_LOST := by rw [hm]; decide
    have e : mainIter silentTick s = okTick s := by
      unfold mainIter
      rw [if_neg hne, if_pos hm]
      simp [okIter, silentTick]
    have hto : (s.count2 + 1) % 65536 ≠ 500 ∨ n = 0 := by
      by_cases hn : n = 0
      · exact Or.inr hn
      · left
        rw [Nat.mod_eq_of_lt (by omega)]
        omega
    have hk : (okTick s).timer = s.timer ∧ (okTick s).count = s.count := by
      by_cases hc5 : (s.count2 + 1) % 65536 = 500 <;>
        simp only [okTick, hc5, if_true, if_false] <;>
        split_ifs <;> exact ⟨rfl, rfl⟩
    rw [List.replicate_succ, run_cons, e]
    rcases hto with hto | rfl
    · obtain ⟨t1, _, t3, _⟩ := okTick_no_timeout s hto
      rw [Nat.mod_eq_of_lt (by omega)] at t3
      have := ih (okTick s) ⟨t1.trans hm, by rw [t3]; omega⟩
      exact ⟨this.1.trans hk.1, this.2.trans hk.2⟩
    · exact hk

/-- After 500 silent ticks from power-on the idle timer and the break counter
are 0. -/
theorem silencedState_counts : silencedState.timer = 0 ∧ silencedState.count = 0 :=
  run_silent_counts 500 bootedState ⟨rfl, by decide⟩

/-- Passes of the main loop in two parts. -/
theorem run_append (is js : List LoopInput) (s : State) :
    run (is ++ js) s = run js (run is s) := by
  simp [run, List.foldl_append]

/-- A single pass of the main loop. -/
theorem run_single (i : LoopInput) (s : State) : run [i] s = mainIter i s :=
  rfl

/-- A tick interval in `MODE_DMX_LOST` with three short frames, handler by
handler. -/
theorem mainIter_tripleBreak_eq (s : State) (hm : s.mode = MODE_DMX_LOST) :
    (mainIter tripleBreak s).mode =
      (lostRx ⟨false, 0⟩ (lostRx ⟨true, 0⟩ (lostRx ⟨false, 0⟩ (lostRx ⟨true, 0⟩
        (lostRx ⟨false, 0⟩ (lostRx ⟨true, 0⟩ (lostArm s))))))).mode ∧
    (mainIter tripleBreak s).timer =
      (lostRx ⟨false, 0⟩ (lostRx ⟨true, 0⟩ (lostRx ⟨false, 0⟩ (lostRx ⟨true, 0⟩
        (lostRx ⟨false, 0⟩ (lostRx ⟨true, 0⟩ (lostArm s))))))).timer ∧
    (mainIter tripleBreak s).count =
      (lostRx ⟨false, 0⟩ (lostRx ⟨true, 0⟩ (lostRx ⟨false, 0⟩ (lostRx ⟨true, 0⟩
        (lostRx ⟨false, 0⟩ (lostRx ⟨true, 0⟩ (lostArm s))))))).count := by
  have e : mainIter tripleBreak s = lostIter tripleBreak.drain s := by
    unfold mainIter
    rw [if_pos hm]
  rw [e]
  simp only [lostIter, lostDrain, tripleBreak, brk, chr, List.foldl_cons, List.foldl_nil,
    and_self]

/-- A break that is not the 50th: counted, idle timer cleared, mode kept. -/
theorem lostRx_counts (d c : Nat) (s : State) (hc : s.count = c) (h : c + 1 < 50) :
    (lostRx ⟨true, d⟩ s).mode = s.mode ∧ (lostRx ⟨true, d⟩ s).count = c + 1 ∧
    (lostRx ⟨true, d⟩ s).timer = 0 := by
  obtain ⟨_, _, f3, f4, f5⟩ := lostRx_fields ⟨true, d⟩ s
  have e : (s.count + 1) % 256 = c + 1 := by rw [hc]; exact Nat.mod_eq_of_lt (by omega)
  have hne : ¬ (c + 1 = 50) := by omega
  rw [e] at f3 f4
  simp only [true_and, if_true, hne, if_false] at f3 f4 f5
  exact ⟨f3, f4, f5⟩

/-- An error-free character in the drain loop: mode, counter and idle timer
kept. -/
theorem lostRx_data (v : Nat) (s : State) :
    (lostRx ⟨false, v⟩ s).mode = s.mode ∧ (lostRx ⟨false, v⟩ s).count = s.count ∧
    (lostRx ⟨false, v⟩ s).timer = s.timer := by
  simp [lostRx]

/-- A tick interval in `MODE_DMX_LOST` with three short frames, fewer than 50
breaks having been counted at its end. -/
theorem mainIter_tripleBreak (c : Nat) (s : State) (hm : s.mode = MODE_DMX_LOST)
    (ht : s.timer ≠ 6) (hc : s.count = c) (h : c + 3 < 50) :
    (mainIter tripleBreak s).mode = MODE_DMX_LOST ∧ (mainIter tripleBreak s).timer = 0 ∧
    (mainIter tripleBreak s).count = c + 3 := by
  obtain ⟨a1, _, a3, _, _⟩ := lostArm_fields s
  rw [if_neg ht] at a3
  obtain ⟨b1, b2, _⟩ := lostRx_counts 0 c (lostArm s) (a3.trans hc) (by omega)
  obtain ⟨d1, d2, _⟩ := lostRx_data 0 (lostRx ⟨true, 0⟩ (lostArm s))
  obtain ⟨b3, b4, _⟩ := lostRx_counts 0 (c + 1) (lostRx ⟨false, 0⟩ (lostRx ⟨true, 0⟩ (lostArm s)))
    (d2.trans b2) (by omega)
  obtain ⟨d3, d4, _⟩ := lostRx_data 0
    (lostRx ⟨true, 0⟩ (lostRx ⟨false, 0⟩ (lostRx ⟨true, 0⟩ (lostArm s))))
  obtain ⟨b5, b6, b7⟩ := lostRx_counts 0 (c + 1 + 1)
    (lostRx ⟨false, 0⟩ (lostRx ⟨true, 0⟩ (lostRx ⟨false, 0⟩ (lostRx ⟨true, 0⟩ (lostArm s)))))
    (d4.trans b4) (by omega)
  obtain ⟨d5, d6, d7⟩ := lostRx_data 0
    (lostRx ⟨true, 0⟩ (lostRx ⟨false, 0⟩ (lostRx ⟨true, 0⟩ (lostRx ⟨false, 0⟩
      (lostRx ⟨true, 0⟩ (lostArm s))))))
  obtain ⟨e1, e2, e3⟩ := mainIter_tripleBreak_eq s hm
  refine ⟨e1.trans ?_, e2.trans ?_, e3.trans ?_⟩
  · rw [d5, b5, d3, b3, d1, b1, a1, hm]
  · rw [d7, b7]
  · rw [d6, b6]

/-- Several such tick intervals in a row. -/
theorem run_tripleBreak : ∀ (m c : Nat) (s : State), s.mode = MODE_DMX_LOST →
    s.timer ≠ 6 → s.count = c → c + 3 * m < 50 →
    (run (List.replicate m tripleBreak) s).mode = MODE_DMX_LOST ∧
    (run (List.replicate m tripleBreak) s).timer ≠ 6 ∧
    (run (List.replicate m tripleBreak) s).count = c + 3 * m := by
  intro m
  induction m with
  | zero => intro c s hm ht hc _; exact ⟨hm, ht, hc⟩
  | succ m ih =>
    intro c s hm ht hc h
    obtain ⟨p1, p2, p3⟩ := mainIter_tripleBreak c s hm ht hc (by omega)
    rw [List.replicate_succ, run_cons]
    have := ih (c + 3) (mainIter tripleBreak s) p1 (by rw [p2]; norm_num) p3 (by omega)
    rw [show c + 3 * (m + 1) = c + 3 + 3 * m by omega]
    exact this

/-- The tick interval in which the 50th break arrives second of three: the
mode becomes `MODE_DMX_OK`, and the third break is counted. -/
theorem mainIter_tripleBreak_switch (s : State) (hm : s.mode = MODE_DMX_LOST)
    (ht : s.timer ≠ 6) (hc : s.count = 48) :
    (mainIter tripleBreak s).mode = MODE_DMX_OK ∧ (mainIter tripleBreak s).count = 1 := by
  obtain ⟨a1, _, a3, _, _⟩ := lostArm_fields s
  rw [if_neg ht] at a3
  obtain ⟨b1, b2, _⟩ := lostRx_counts 0 48 (lostArm s) (a3.trans hc) (by norm_num)
  obtain ⟨d1, d2, _⟩ := lostRx_data 0 (lostRx ⟨true, 0⟩ (lostArm s))
  obtain ⟨_, _, f3, f4, _⟩ := lostRx_fields ⟨true, 0⟩
    (lostRx ⟨false, 0⟩ (lostRx ⟨true, 0⟩ (lostArm s)))
  rw [d2, b2] at f3 f4
  simp only [true_and, if_true] at f3 f4
  have f3' : (lostRx ⟨true, 0⟩ (lostRx ⟨false, 0⟩ (lostRx ⟨true, 0⟩ (lostArm s)))).mode
      = MODE_DMX_OK := by simpa using f3
  have f4' : (lostRx ⟨true, 0⟩ (lostRx ⟨false, 0⟩ (lostRx ⟨true, 0⟩ (lostArm s)))).count
      = 0 := by simpa using f4
  obtain ⟨d3, d4, _⟩ := lostRx_data 0
    (lostRx ⟨true, 0⟩ (lostRx ⟨false, 0⟩ (lostRx ⟨true, 0⟩ (lostArm s))))
  obtain ⟨b5, b6, _⟩ := lostRx_counts 0 0
    (lostRx ⟨false, 0⟩ (lostRx ⟨true, 0⟩ (lostRx ⟨false, 0⟩ (lostRx ⟨true, 0⟩ (lostArm s)))))
    (d4.trans f4') (by norm_num)
  obtain ⟨d5, d6, _⟩ := lostRx_data 0
    (lostRx ⟨true, 0⟩ (lostRx ⟨false, 0⟩ (lostRx ⟨true, 0⟩ (lostRx ⟨false, 0⟩
      (lostRx ⟨true, 0⟩ (lostArm s))))))
  obtain ⟨e1, _, e3⟩ := mainIter_tripleBreak_eq s hm
  refine ⟨e1.trans ?_, e3.trans ?_⟩
  · rw [d5, b5, d3, f3']
  · rw [d6, b6]

/-- C14, the code at a failing input: after power-on, 500 silent ticks and 17
tick intervals with three short frames each, the state at the top of the main
loop is reachable and in `MODE_DMX_OK`, and the break counter reads 1, not 0:
the 50th break was the second of its tick interval and the drain loop counted
the third. -/
theorem C14_counter_not_zero :
    Reachable overcountedState ∧ overcountedState.mode = MODE_DMX_OK ∧
    overcountedState.count = 1 := by
  have h16 := run_tripleBreak 16 0 silencedState silencedState_mode
    (by rw [silencedState_counts.1]; norm_num) silencedState_counts.2 (by norm_num)
  have hsw := mainIter_tripleBreak_switch _ h16.1 h16.2.1 h16.2.2
  have e : overcountedState =
      mainIter tripleBreak (run (List.replicate 16 tripleBreak) silencedState) := by
    unfold overcountedState
    rw [show (17 : Nat) = 16 + 1 from rfl, List.replicate_succ', run_append, run_single]
  refine ⟨reachable_run _ _ silencedState_reachable, ?_, ?_⟩
  · rw [e]; exact hsw.1
  · rw [e]; exact hsw.2

/-! ## The cursor after the addressing procedure -/

/-- C17, the code at a failing input: after a power-on with the button held
and the stream break, start code, `0xff`, the main loop starts in
`MODE_DMX_OK`, seeking, with channel addresses 1 to 4 and the position counter
at 1, while two error-free bytes have been received since the break; the next
four bytes 0, 0, 0, 200, which stand at positions 2 to 5 of that frame, are
taken for channels 1 to 4 and the relays are written off, off, off, on,
whereas positions 1 to 4 hold 255, 0, 0, 0. -/
theorem C17_cursor_after_addressing :
    addressedState.map (fun s => (s.mode, s.rx_state, s.rx_addr, channels s))
      = some (MODE_DMX_OK, 1, 1, [1, 2, 3, 4]) ∧
    bytesSinceBreak none (received streamTo1) = some 2 ∧
    addressedState.map (fun s => relays (run fourMore s)) = some [false, false, false, true] := by
  decide

/-! ## The idle timer over whole runs -/

end DmxRelay
